import Mathlib

/-!
Verification of the ZKForge zkSTARK authentication library.

This file gives a shallow embedding, in Lean 4, of the TypeScript sources:
`src/field.ts` (prime-field arithmetic, the `authHash` transition, byte
encoding), `src/merkle.ts` (Merkle tree and inclusion proofs),
`src/prover.ts` (trace construction, Fiat–Shamir seed and query-index
derivation, proof generation) and `src/verifier.ts` (`StarkVerifier.verify`),
together with the SHA-256 hash they use (from `@noble/hashes/sha256`).

Bytes are modelled as `List Nat` (each entry is a byte value `< 256` wherever
a `Uint8Array` appears in the source).  JavaScript `bigint` arithmetic is
modelled by `Int`/`Nat`; the 32-bit word arithmetic of SHA-256 is `Nat`
arithmetic reduced `% 2^32`.  Code that throws is modelled with `Except`,
and the prover's rejection-sampling loop, a `while` loop that in general
need not terminate, takes an explicit fuel argument and returns `none` when
the fuel runs out.
-/

deriving instance DecidableEq for Except

namespace ZK

/-- Byte strings (`Uint8Array` in the source) as lists of naturals. -/
abbrev Bytes := List Nat

/-! ## SHA-256 (the `sha256` import from `@noble/hashes/sha256`) -/

namespace SHA256

/-- 32-bit word size. -/
def w32 : Nat := 4294967296

/-- Addition modulo 2^32. -/
def add32 (a b : Nat) : Nat := (a + b) % w32

/-- Right rotation of a 32-bit word. -/
def rotr (n x : Nat) : Nat := ((x >>> n) ||| (x <<< (32 - n))) % w32

/-- SHA-256 small sigma 0. -/
def ssig0 (x : Nat) : Nat := (rotr 7 x) ^^^ (rotr 18 x) ^^^ (x >>> 3)

/-- SHA-256 small sigma 1. -/
def ssig1 (x : Nat) : Nat := (rotr 17 x) ^^^ (rotr 19 x) ^^^ (x >>> 10)

/-- SHA-256 big sigma 0. -/
def bsig0 (x : Nat) : Nat := (rotr 2 x) ^^^ (rotr 13 x) ^^^ (rotr 22 x)

/-- SHA-256 big sigma 1. -/
def bsig1 (x : Nat) : Nat := (rotr 6 x) ^^^ (rotr 11 x) ^^^ (rotr 25 x)

/-- Choice function. -/
def ch (x y z : Nat) : Nat := (x &&& y) ^^^ ((x ^^^ (w32 - 1)) &&& z)

/-- Majority function. -/
def maj (x y z : Nat) : Nat := (x &&& y) ^^^ (x &&& z) ^^^ (y &&& z)

/-- The 64 round constants (first 32 bits of the fractional parts of the cube
roots of the first 64 primes). -/
def K : List Nat :=
  [1116352408, 1899447441, 3049323471, 3921009573, 961987163, 1508970993,
   2453635748, 2870763221, 3624381080, 310598401, 607225278, 1426881987,
   1925078388, 2162078206, 2614888103, 3248222580, 3835390401, 4022224774,
   264347078, 604807628, 770255983, 1249150122, 1555081692, 1996064986,
   2554220882, 2821834349, 2952996808, 3210313671, 3336571891, 3584528711,
   113926993, 338241895, 666307205, 773529912, 1294757372, 1396182291,
   1695183700, 1986661051, 2177026350, 2456956037, 2730485921, 2820302411,
   3259730800, 3345764771, 3516065817, 3600352804, 4094571909, 275423344,
   430227734, 506948616, 659060556, 883997877, 958139571, 1322822218,
   1537002063, 1747873779, 1955562222, 2024104815, 2227730452, 2361852424,
   2428436474, 2756734187, 3204031479, 3329325298]

/-- The initial hash state (first 32 bits of the fractional parts of the
square roots of the first 8 primes). -/
def H0 : List Nat :=
  [1779033703, 3144134277, 1013904242, 2773480762, 1359893119, 2600822924,
   528734635, 1541459225]

/-- Big-endian byte decomposition of `v` into `n` bytes. -/
def beBytes : Nat → Nat → Bytes
  | 0, _ => []
  | n + 1, v => beBytes n (v / 256) ++ [v % 256]

/-- Group bytes into big-endian 32-bit words, 4 bytes per word. -/
def bytesToWords : Bytes → List Nat
  | b0 :: b1 :: b2 :: b3 :: rest =>
      (((b0 <<< 8 ||| b1) <<< 8 ||| b2) <<< 8 ||| b3) :: bytesToWords rest
  | _ => []

/-- SHA-256 message padding: append `0x80`, zeros, and the 64-bit bit length,
reaching a multiple of 64 bytes. -/
def pad (msg : Bytes) : Bytes :=
  msg ++ [128] ++ List.replicate ((119 - msg.length % 64) % 64) 0
      ++ beBytes 8 (8 * msg.length)

/-- Extend the 16 block words to the 64-entry message schedule. -/
def schedule (ws : List Nat) : List Nat :=
  (List.range 48).foldl
    (fun acc _ =>
      let n := acc.length
      acc ++ [add32 (add32 (ssig1 (acc.getD (n - 2) 0)) (acc.getD (n - 7) 0))
                    (add32 (ssig0 (acc.getD (n - 15) 0)) (acc.getD (n - 16) 0))])
    ws

/-- One round of the compression function. -/
def round (st : Nat × Nat × Nat × Nat × Nat × Nat × Nat × Nat) (kw : Nat × Nat) :
    Nat × Nat × Nat × Nat × Nat × Nat × Nat × Nat :=
  let (a, b, c, d, e, f, g, h) := st
  let t1 := add32 (add32 (add32 h (bsig1 e)) (add32 (ch e f g) kw.1)) kw.2
  let t2 := add32 (bsig0 a) (maj a b c)
  (add32 t1 t2, a, b, c, add32 d t1, e, f, g)

/-- Compress one 16-word block into the running 8-word state. -/
def compress (st : List Nat) (block : List Nat) : List Nat :=
  let ws := schedule block
  let a0 := st.getD 0 0
  let b0 := st.getD 1 0
  let c0 := st.getD 2 0
  let d0 := st.getD 3 0
  let e0 := st.getD 4 0
  let f0 := st.getD 5 0
  let g0 := st.getD 6 0
  let h0 := st.getD 7 0
  let (a, b, c, d, e, f, g, h) :=
    (List.zip K ws).foldl round (a0, b0, c0, d0, e0, f0, g0, h0)
  [add32 a0 a, add32 b0 b, add32 c0 c, add32 d0 d,
   add32 e0 e, add32 f0 f, add32 g0 g, add32 h0 h]

/-- Split a word list into 16-word blocks.  The first argument is fuel
(structural recursion so the kernel can evaluate it); every use passes the
list's length, which suffices since each step consumes 16 ≥ 1 words. -/
def blocksOf : Nat → List Nat → List (List Nat)
  | 0, _ => []
  | fuel + 1, ws =>
      if ws.isEmpty then [] else ws.take 16 :: blocksOf fuel (ws.drop 16)

end SHA256

/-- SHA-256 of a byte string, as a 32-byte string. -/
def sha256 (msg : Bytes) : Bytes :=
  let ws := SHA256.bytesToWords (SHA256.pad msg)
  let final := (SHA256.blocksOf ws.length ws).foldl SHA256.compress SHA256.H0
  final.foldr (fun w acc => SHA256.beBytes 4 w ++ acc) []

/-! ## Errors

The TypeScript sources throw `Error` objects with distinguishing messages;
the spec's taxonomy names them `FieldMismatch`, `DivisionByZero`,
`InvalidLength`, `EmptyInput`, `IndexOutOfRange`, `InvalidParams`,
`WitnessMismatch`.  One inductive collects them; `outOfFuel` marks
exhaustion of the fuel that stands in for the prover's unbounded
rejection-sampling loop. -/

inductive Err where
  | fieldMismatch
  | divisionByZero
  | notInvertible
  | invalidLength
  | emptyInput
  | indexOutOfRange
  | invalidParams
  | witnessMismatch
  | outOfFuel
deriving DecidableEq, Repr

/-! ## Field arithmetic (`src/field.ts`) -/

/-- A field element: `value` and `modulus` (both `bigint` in the source).
The class constructor canonicalizes, so `value < modulus` is an invariant of
every element the library builds. -/
structure FieldElement where
  value : Nat
  modulus : Nat
deriving DecidableEq, Repr

/-- The constructor `new FieldElement(value, modulus)`: canonicalize `value`
into `[0, modulus)`.  JavaScript `%` on `bigint` truncates toward zero and
the source adds `modulus` when the remainder is negative, which is exactly
`Int.emod` for a positive modulus. -/
def FieldElement.mk' (v : Int) (m : Nat) : FieldElement :=
  ⟨(v % (m : Int)).toNat, m⟩

namespace FieldElement

/-- `ensureSameField`: throws `FieldMismatch` when the moduli differ. -/
def ensureSameField (a b : FieldElement) : Except Err Unit :=
  if a.modulus = b.modulus then .ok () else .error .fieldMismatch

def add (a b : FieldElement) : Except Err FieldElement := do
  a.ensureSameField b
  pure (mk' ((a.value : Int) + (b.value : Int)) a.modulus)

def sub (a b : FieldElement) : Except Err FieldElement := do
  a.ensureSameField b
  pure (mk' ((a.value : Int) - (b.value : Int)) a.modulus)

def mul (a b : FieldElement) : Except Err FieldElement := do
  a.ensureSameField b
  pure (mk' ((a.value : Int) * (b.value : Int)) a.modulus)

/-- Pure shadow of `mul`, used where `ensureSameField` provably passes
(all multiplications inside `pow` act on elements of one modulus). -/
def mulP (a b : FieldElement) : FieldElement :=
  mk' ((a.value : Int) * (b.value : Int)) a.modulus

def one (m : Nat) : FieldElement := mk' 1 m

def zero (m : Nat) : FieldElement := mk' 0 m

/-- The binary-exponentiation loop of `pow` (`while exp > 0 {...}`).  The
first argument is fuel for structural recursion; the loop halves `exp` each
iteration, so fuel equal to the initial exponent always suffices. -/
def powLoop : Nat → FieldElement → FieldElement → Nat → FieldElement
  | 0, result, _, _ => result
  | fuel + 1, result, base, exp =>
      if exp = 0 then result
      else
        powLoop fuel (if exp % 2 = 1 then mulP result base else result)
          (mulP base base) (exp / 2)

/-- `pow` for a non-negative exponent. -/
def powNat (a : FieldElement) (e : Nat) : FieldElement :=
  powLoop e (one a.modulus) a e

/-- The extended-Euclid loop of `extendedGcd` (`while r !== 0n {...}`),
tracking `(oldR, r, oldS, s)`.  `r` strictly decreases, so fuel equal to the
initial `r` suffices; structural fuel keeps the kernel able to evaluate it. -/
def egcdLoop : Nat → Nat → Nat → Int → Int → Nat × Int
  | 0, oldR, _, oldS, _ => (oldR, oldS)
  | fuel + 1, oldR, r, oldS, s =>
      if r = 0 then (oldR, oldS)
      else egcdLoop fuel r (oldR % r) s (oldS - (oldR / r : Nat) * s)

/-- `extendedGcd(a, b)`: returns `[gcd, x]` with `x` the Bézout coefficient
of `a`. -/
def extendedGcd (a b : Nat) : Nat × Int :=
  if b = 0 then (a, 1) else egcdLoop b a b 1 0

/-- `inverse()`: throws on zero, runs extended Euclid, rejects a non-unit
gcd, canonicalizes the coefficient. -/
def inverse (a : FieldElement) : Except Err FieldElement :=
  if a.value = 0 then .error .divisionByZero
  else
    let gx := extendedGcd a.value a.modulus
    if gx.1 ≠ 1 then .error .notInvertible
    else .ok (mk' gx.2 a.modulus)

/-- `pow(exponent)` with a possibly negative exponent: a negative exponent
inverts first. -/
def pow (a : FieldElement) (e : Int) : Except Err FieldElement :=
  if e < 0 then do
    let i ← a.inverse
    pure (powNat i e.natAbs)
  else pure (powNat a e.toNat)

def div (a b : FieldElement) : Except Err FieldElement := do
  a.ensureSameField b
  let i ← b.inverse
  a.mul i

def neg (a : FieldElement) : FieldElement :=
  mk' (-(a.value : Int)) a.modulus

/-- `equals`: value and modulus both match. -/
def equals (a b : FieldElement) : Bool :=
  a.value == b.value && a.modulus == b.modulus

def isZero (a : FieldElement) : Bool := a.value == 0

end FieldElement

/-- `STARK_PRIME = 2^251 + 17 * 2^192 + 1`. -/
def STARK_PRIME : Nat := 2 ^ 251 + 17 * 2 ^ 192 + 1

/-- `authHash(x) = x.pow(3).add(7)`, the transition function
`H(x) = x³ + 7 (mod p)`. -/
def authHash (x : FieldElement) : Except Err FieldElement := do
  let y ← x.pow 3
  y.add (FieldElement.mk' 7 x.modulus)

/-- Pure shadow of `authHash`; `authHash` never actually throws because the
cube and the constant `7` share `x`'s modulus (lemma `authHash_eq` below). -/
def authHashP (x : FieldElement) : FieldElement :=
  FieldElement.mk'
    ((FieldElement.powNat x 3).value + (FieldElement.mk' 7 x.modulus).value)
    x.modulus

/-- `fieldElementToBytes`: 32-byte big-endian encoding.  The source pads the
hex expansion of `value` on the left to 64 nibbles and reads 32 byte pairs,
which is exactly the 32-byte big-endian encoding whenever `value < 2^256`;
every element the library constructs is canonical below its modulus, and the
protocol's modulus `STARK_PRIME < 2^252` keeps values in that range. -/
def fieldElementToBytes (fe : FieldElement) : Bytes :=
  SHA256.beBytes 32 fe.value

/-- The big-endian fold performed by `fieldElementFromBytes`:
`v = (v << 8) | b` over the bytes, starting from `0`. -/
def beFold (bytes : Bytes) : Nat :=
  bytes.foldl (fun v b => (v <<< 8) ||| b) 0

/-- `fieldElementFromBytes`: reject lengths other than 32, fold big-endian
bytes with `v = (v << 8) | b`, reduce via the canonicalizing constructor. -/
def fieldElementFromBytes (bytes : Bytes) : Except Err FieldElement :=
  if bytes.length ≠ 32 then .error .invalidLength
  else .ok (FieldElement.mk' ((beFold bytes : Nat) : Int) STARK_PRIME)

/-! ## Merkle tree (`src/merkle.ts`)

All Merkle and protocol functions take the hash as an explicit parameter
`hash : Bytes → Bytes`; the source fixes it to `sha256`.  `arraysEqual` in
the source is element-wise equality including lengths, i.e. list equality. -/

/-- Sibling position tag (`'left' | 'right'`). -/
inductive Pos where
  | left
  | right
deriving DecidableEq, Repr

structure MerkleProof where
  leaf : Bytes
  proof : List (Bytes × Pos)
  root : Bytes
deriving DecidableEq, Repr

structure MerkleTree where
  leaves : List Bytes
  layers : List (List Bytes)
  root : Bytes
deriving DecidableEq, Repr

/-- One pass of `buildTree`'s inner `for` loop: hash adjacent pairs, promote
a trailing unpaired node unchanged. -/
def nextLayer (hash : Bytes → Bytes) : List Bytes → List Bytes
  | [] => []
  | [a] => [a]
  | a :: b :: rest => hash (a ++ b) :: nextLayer hash rest

/-- `buildTree`'s outer `while (currentLayer.length > 1)` loop, collecting
every layer starting from the leaves.  The fuel argument makes the recursion
structural (kernel-evaluable); each pass at least halves a layer of length
≥ 2, so fuel `leaves.length` always suffices (`buildLayers` below). -/
def buildLayersF (hash : Bytes → Bytes) : Nat → List Bytes → List (List Bytes)
  | 0, l => [l]
  | fuel + 1, l =>
      if l.length ≤ 1 then [l]
      else l :: buildLayersF hash fuel (nextLayer hash l)

def buildLayers (hash : Bytes → Bytes) (leaves : List Bytes) :
    List (List Bytes) :=
  buildLayersF hash leaves.length leaves

/-- The `MerkleTree` constructor: rejects an empty leaf list, stores all
layers, sets `root` to the single node of the last layer. -/
def MerkleTree.build (hash : Bytes → Bytes) (leaves : List Bytes) :
    Except Err MerkleTree :=
  if leaves.length = 0 then .error .emptyInput
  else
    let layers := buildLayers hash leaves
    .ok ⟨leaves, layers, (layers.getLastD []).headD []⟩

/-- `getProof`'s layer walk: for every layer except the last, record the
sibling (if it exists) tagged with its side, then halve the index. -/
def collectPath : List (List Bytes) → Nat → List (Bytes × Pos)
  | [], _ => []
  | [_], _ => []
  | layer :: next :: rest, idx =>
      let isRight := idx % 2 = 1
      let sibling := if isRight then idx - 1 else idx + 1
      (if sibling < layer.length then
        [(layer.getD sibling [], if isRight then Pos.left else Pos.right)]
      else []) ++ collectPath (next :: rest) (idx / 2)

/-- `MerkleTree.getProof(index)`. -/
def MerkleTree.getProof (t : MerkleTree) (index : Nat) :
    Except Err MerkleProof :=
  if index ≥ t.leaves.length then .error .indexOutOfRange
  else .ok ⟨t.leaves.getD index [], collectPath t.layers index, t.root⟩

/-- The hash-replay fold inside `MerkleProof.verify`. -/
def replayChain (hash : Bytes → Bytes) (leaf : Bytes)
    (entries : List (Bytes × Pos)) : Bytes :=
  entries.foldl
    (fun current e =>
      match e.2 with
      | Pos.left => hash (e.1 ++ current)
      | Pos.right => hash (current ++ e.1))
    leaf

/-- `MerkleProof.verify()`: replay the chain from the stored leaf and compare
with the stored root. -/
def MerkleProof.verify (hash : Bytes → Bytes) (p : MerkleProof) : Bool :=
  replayChain hash p.leaf p.proof == p.root

/-! ## Prover (`src/prover.ts`) -/

structure Statement where
  steps : Nat
  finalHash : FieldElement
deriving DecidableEq, Repr

structure Witness where
  secret : FieldElement
deriving DecidableEq, Repr

structure AuthParams where
  steps : Nat
  queries : Nat
deriving DecidableEq, Repr

structure AuthOpening where
  index : Nat
  current : FieldElement
  next : FieldElement
  proofCurrent : MerkleProof
  proofNext : MerkleProof
deriving DecidableEq, Repr

structure Proof where
  root : Bytes
  indices : List Nat
  openings : List AuthOpening
deriving DecidableEq, Repr

/-- The hash chain `t[0] = H(s)`, `t[i] = H(t[i-1])`, as a list of the given
length.  Written with the pure `authHashP`: by `authHash_eq` below the
source's `authHash` never throws, so the two agree on every trace. -/
def chain (x : FieldElement) : Nat → List FieldElement
  | 0 => []
  | n + 1 => authHashP x :: chain (authHashP x) n

/-- `buildAuthTrace(witness, params)`. -/
def buildAuthTrace (w : Witness) (p : AuthParams) :
    Except Err (List FieldElement) :=
  if p.steps < 2 then .error .invalidParams
  else .ok (chain w.secret p.steps)

/-- `computeChallengeSeed(root, statement) = sha256(root || finalHash)`. -/
def computeChallengeSeed (hash : Bytes → Bytes) (root : Bytes)
    (st : Statement) : Bytes :=
  hash (root ++ fieldElementToBytes st.finalHash)

/-- One draw of the derivation loop: hash `seed || counter` (counter as four
big-endian bytes), fold the first 8 digest bytes with `(acc << 8) | b`,
reduce modulo `steps - 1`. -/
def idxDraw (hash : Bytes → Bytes) (seed : Bytes) (steps counter : Nat) :
    Nat :=
  let ctr : Bytes :=
    [(counter >>> 24) &&& 255, (counter >>> 16) &&& 255,
     (counter >>> 8) &&& 255, counter &&& 255]
  let h := hash (seed ++ ctr)
  let acc := (h.take 8).foldl (fun a b => (a <<< 8) ||| b) 0
  acc % (steps - 1)

/-- The `while (indices.length < queries)` rejection-sampling loop of
`deriveQueryIndices`.  The loop has no termination guarantee (a draw may
duplicate forever), so it takes fuel and returns `none` on exhaustion. -/
def deriveLoop (hash : Bytes → Bytes) (seed : Bytes) (steps queries : Nat) :
    List Nat → Nat → Nat → Option (List Nat)
  | indices, _, 0 =>
      if queries ≤ indices.length then some indices else none
  | indices, counter, fuel + 1 =>
      if queries ≤ indices.length then some indices
      else
        let idx := idxDraw hash seed steps counter
        deriveLoop hash seed steps queries
          (if indices.contains idx then indices else indices ++ [idx])
          (counter + 1) fuel

/-- `deriveQueryIndices(seed, params)`: validate the parameters, force index
`steps - 2` in first, then rejection-sample the rest. -/
def deriveQueryIndices (hash : Bytes → Bytes) (seed : Bytes)
    (p : AuthParams) (fuel : Nat) : Except Err (List Nat) :=
  if p.queries < 1 then .error .invalidParams
  else if p.steps < 2 then .error .invalidParams
  else if p.queries > p.steps - 1 then .error .invalidParams
  else
    match deriveLoop hash seed p.steps p.queries [p.steps - 2] 0 fuel with
    | some l => .ok l
    | none => .error .outOfFuel

/-- The closure `indices.map((index) => {...})` inside `generateAuthProof`:
fetch the Merkle proofs for `index` and `index + 1` and package the
opening. -/
def openProver (tree : MerkleTree) (trace : List FieldElement)
    (index : Nat) : Except Err AuthOpening :=
  (tree.getProof index).bind fun proofCurrent =>
  (tree.getProof (index + 1)).bind fun proofNext =>
  .ok ⟨index, trace.getD index ⟨0, 0⟩, trace.getD (index + 1) ⟨0, 0⟩,
       proofCurrent, proofNext⟩

/-- `generateAuthProof(statement, witness, params)` (written with explicit
`bind`/`ite` in place of the source's statement sequence; semantics
unchanged: each `throw` short-circuits). -/
def generateAuthProof (hash : Bytes → Bytes) (st : Statement) (w : Witness)
    (p : AuthParams) (fuel : Nat) : Except Err Proof :=
  if p.queries < 1 then .error .invalidParams
  else if p.queries > p.steps - 1 then .error .invalidParams
  else
    (buildAuthTrace w p).bind fun trace =>
    if ¬ FieldElement.equals (trace.getD (p.steps - 1) ⟨0, 0⟩) st.finalHash then
      .error .witnessMismatch
    else
      (MerkleTree.build hash (trace.map fieldElementToBytes)).bind fun tree =>
      (deriveQueryIndices hash (computeChallengeSeed hash tree.root st) p
          fuel).bind fun indices =>
      (indices.mapM (openProver tree trace)).bind fun openings =>
      .ok ⟨tree.root, indices, openings⟩

/-! ## Verifier (`src/verifier.ts`) -/

structure StarkVerifier where
  statement : Statement
  params : AuthParams
deriving DecidableEq, Repr

/-- The verifier's per-opening `for` loop, over `indices` zipped with
`openings` (the lengths were already checked equal), threading the
`finalEdgeChecked` flag; after the loop the flag is the verdict.  Written
with the pure `authHashP` for the transition check: by `authHash_eq` the
source's `authHash` never throws.  The source's `index < 0` test is vacuous
here since indices are naturals. -/
def checkOpenings (hash : Bytes → Bytes) (st : Statement) (steps : Nat)
    (root : Bytes) : List (Nat × AuthOpening) → Bool → Bool
  | [], finalEdgeChecked => finalEdgeChecked
  | (index, opening) :: rest, finalEdgeChecked =>
      if opening.index ≠ index then false
      else if steps - 1 ≤ index then false
      else if ¬ (opening.proofCurrent.root = root ∧
                 opening.proofNext.root = root) then false
      else if ¬ MerkleProof.verify hash opening.proofCurrent then false
      else if ¬ MerkleProof.verify hash opening.proofNext then false
      else if ¬ FieldElement.equals (authHashP opening.current)
                  opening.next then false
      else if index = steps - 2 then
        if ¬ FieldElement.equals opening.next st.finalHash then false
        else checkOpenings hash st steps root rest true
      else checkOpenings hash st steps root rest finalEdgeChecked

/-- The body of `verify` inside its `try` (explicit `ite`/`bind` in place
of the source's early returns): everything that can `return false` does so
through `ok false`; a thrown error surfaces as `.error` (only
`deriveQueryIndices` can throw here — see `checkOpenings` above). -/
def verifyBody (hash : Bytes → Bytes) (v : StarkVerifier) (proof : Proof)
    (fuel : Nat) : Except Err Bool :=
  if v.params.steps < 2 ∨ v.params.queries < 1 then .ok false
  else if proof.indices.length ≠ v.params.queries then .ok false
  else if proof.openings.length ≠ v.params.queries then .ok false
  else
    (deriveQueryIndices hash
        (computeChallengeSeed hash proof.root v.statement) v.params
        fuel).bind fun expectedIndices =>
    if expectedIndices ≠ proof.indices then .ok false
    else .ok (checkOpenings hash v.statement v.params.steps proof.root
      (proof.indices.zip proof.openings) false)

/-- `StarkVerifier.verify`: the surrounding `try/catch` maps any thrown
error to `false`. -/
def StarkVerifier.verify (hash : Bytes → Bytes) (v : StarkVerifier)
    (proof : Proof) (fuel : Nat) : Bool :=
  match verifyBody hash v proof fuel with
  | .ok b => b
  | .error _ => false

/-! ## Concrete instances used by witnesses and counterexamples -/

/-- A degenerate constant hash, used only to instantiate hash-generic
theorems in witnesses. -/
def hash0 : Bytes → Bytes := fun _ => List.replicate 32 0

/-- The spec's end-to-end instance: secret 123456789, 16 steps, 5 queries. -/
def w16 : Witness := ⟨⟨123456789, STARK_PRIME⟩⟩

def st16 : Statement := ⟨16, (chain w16.secret 16).getD 15 ⟨0, 0⟩⟩

def params16 : AuthParams := ⟨16, 5⟩

/-- The Merkle root of the 16-step trace of `w16` (its value is proved in
`root16_eq`, by evaluation). -/
def rootLit16 : Bytes :=
  [144, 102, 158, 34, 195, 104, 150, 85, 239, 14, 0, 231, 98, 61, 183, 60,
   230, 246, 213, 226, 184, 133, 46, 71, 67, 169, 221, 89, 204, 217, 106, 53]

/-- The Fiat–Shamir seed of the 16-step instance (proved in `seed16_eq`). -/
def seedLit16 : Bytes :=
  [12, 55, 242, 124, 116, 166, 195, 116, 179, 208, 176, 244, 6, 249, 240,
   102, 187, 25, 197, 21, 84, 9, 169, 36, 72, 91, 54, 10, 237, 131, 193, 204]

/-- The leaf encodings of the 16-step trace (value proved in
`leaves16_eq`). -/
def leavesLit16 : List Bytes :=
  [[0, 0, 0, 0, 0, 0, 0, 0, 0, 0, 0, 0, 0, 0, 0, 0, 0, 0, 0, 0, 0, 1, 142, 117, 225, 105, 33, 139, 4, 131, 147, 52],
   [0, 3, 197, 84, 122, 125, 15, 207, 117, 198, 104, 33, 91, 72, 6, 234, 115, 140, 201, 107, 203, 22, 120, 232, 52, 85, 113, 197, 60, 64, 53, 71],
   [5, 143, 25, 228, 204, 207, 175, 74, 175, 179, 243, 119, 236, 52, 93, 199, 247, 91, 85, 193, 137, 241, 129, 222, 223, 60, 135, 83, 206, 107, 117, 233],
   [7, 249, 33, 100, 77, 214, 129, 81, 252, 111, 87, 245, 141, 61, 7, 242, 179, 135, 87, 175, 7, 48, 107, 134, 163, 11, 96, 14, 20, 252, 72, 159],
   [4, 247, 39, 205, 221, 6, 132, 221, 69, 156, 154, 77, 246, 79, 25, 115, 96, 153, 56, 46, 56, 81, 159, 70, 106, 195, 190, 240, 109, 237, 45, 73],
   [2, 16, 46, 201, 96, 188, 97, 190, 152, 60, 173, 207, 252, 45, 195, 189, 233, 231, 50, 188, 105, 14, 191, 188, 87, 97, 68, 57, 99, 65, 131, 217],
   [6, 252, 167, 153, 81, 12, 131, 7, 50, 39, 221, 17, 189, 177, 193, 135, 204, 37, 96, 114, 157, 236, 139, 203, 253, 82, 30, 107, 189, 15, 108, 140],
   [0, 16, 235, 25, 249, 172, 17, 163, 229, 29, 77, 9, 128, 61, 213, 46, 21, 30, 244, 225, 109, 111, 142, 196, 129, 102, 113, 250, 63, 131, 185, 242],
   [4, 135, 6, 250, 32, 63, 132, 104, 59, 252, 254, 249, 104, 41, 143, 205, 231, 134, 187, 234, 217, 15, 86, 55, 16, 182, 8, 4, 228, 195, 242, 238],
   [7, 249, 167, 26, 40, 166, 15, 108, 94, 67, 53, 194, 162, 237, 172, 59, 197, 12, 49, 122, 196, 10, 53, 117, 221, 43, 130, 203, 91, 166, 226, 18],
   [6, 24, 42, 81, 75, 87, 40, 87, 217, 179, 176, 41, 166, 178, 127, 82, 40, 3, 209, 216, 134, 37, 100, 163, 118, 55, 188, 119, 101, 69, 4, 33],
   [6, 90, 200, 75, 229, 226, 94, 59, 234, 234, 139, 83, 27, 221, 84, 168, 236, 236, 45, 47, 69, 25, 89, 124, 230, 18, 60, 141, 101, 203, 174, 19],
   [7, 151, 6, 138, 27, 213, 236, 107, 14, 253, 98, 208, 15, 142, 57, 167, 97, 163, 84, 196, 241, 21, 140, 187, 190, 79, 27, 214, 92, 163, 51, 99],
   [6, 234, 158, 191, 75, 0, 205, 58, 24, 159, 101, 154, 5, 49, 137, 219, 231, 99, 131, 241, 134, 146, 170, 63, 161, 159, 204, 16, 109, 55, 27, 171],
   [2, 14, 174, 160, 95, 155, 129, 49, 235, 40, 25, 167, 59, 207, 92, 82, 119, 19, 39, 67, 61, 116, 65, 101, 52, 13, 94, 44, 233, 51, 248, 54],
   [0, 124, 7, 133, 41, 240, 209, 80, 112, 134, 223, 94, 131, 59, 187, 188, 72, 245, 66, 103, 26, 120, 46, 26, 201, 173, 117, 149, 75, 56, 225, 111]]

/-- Layer 1 of the 16-leaf Merkle tree (value proved in
`layer1_eq`). -/
def layer1Lit16 : List Bytes :=
  [[195, 68, 165, 126, 209, 134, 204, 163, 149, 118, 198, 254, 137, 3, 169, 248, 201, 148, 236, 17, 50, 34, 141, 27, 5, 122, 39, 154, 108, 125, 62, 67],
   [245, 56, 118, 2, 107, 49, 101, 90, 180, 26, 58, 235, 43, 3, 100, 191, 90, 169, 33, 127, 26, 99, 28, 76, 233, 102, 208, 92, 116, 231, 134, 91],
   [112, 214, 50, 50, 55, 211, 144, 225, 106, 182, 63, 72, 48, 250, 182, 159, 116, 217, 99, 137, 31, 63, 107, 33, 50, 72, 161, 35, 174, 182, 173, 62],
   [239, 104, 81, 77, 131, 56, 134, 122, 167, 16, 101, 66, 31, 116, 57, 144, 206, 14, 163, 133, 142, 35, 33, 2, 118, 208, 19, 191, 106, 123, 135, 181],
   [162, 167, 82, 13, 231, 243, 214, 227, 21, 152, 198, 9, 43, 76, 243, 143, 72, 152, 45, 91, 203, 40, 74, 145, 9, 25, 22, 42, 217, 120, 164, 139],
   [145, 195, 233, 109, 150, 79, 54, 211, 243, 58, 58, 110, 249, 191, 255, 77, 1, 1, 18, 122, 99, 163, 168, 146, 174, 185, 26, 162, 6, 145, 64, 70],
   [100, 255, 182, 140, 220, 152, 83, 148, 96, 10, 115, 163, 227, 178, 144, 83, 16, 197, 161, 65, 179, 102, 63, 171, 173, 72, 79, 102, 109, 201, 195, 255],
   [194, 50, 51, 130, 133, 243, 216, 221, 59, 176, 23, 61, 184, 205, 24, 16, 120, 111, 169, 193, 243, 178, 16, 66, 72, 172, 192, 218, 102, 184, 158, 16]]

/-- Layer 2 of the 16-leaf Merkle tree (value proved in
`layer2_eq`). -/
def layer2Lit16 : List Bytes :=
  [[153, 184, 164, 77, 252, 196, 71, 197, 90, 206, 26, 228, 93, 118, 66, 36, 199, 183, 235, 168, 113, 56, 189, 138, 68, 251, 125, 137, 16, 119, 140, 82],
   [11, 126, 202, 78, 242, 68, 131, 168, 183, 181, 192, 7, 247, 252, 227, 101, 66, 224, 63, 221, 161, 39, 94, 59, 43, 115, 144, 247, 147, 164, 62, 227],
   [188, 6, 2, 231, 217, 180, 111, 83, 57, 116, 221, 225, 163, 80, 190, 204, 244, 246, 130, 223, 169, 155, 10, 43, 160, 244, 172, 138, 57, 97, 157, 135],
   [194, 246, 180, 48, 103, 196, 175, 165, 154, 129, 47, 78, 76, 250, 130, 82, 231, 224, 212, 15, 159, 125, 104, 41, 220, 7, 108, 120, 161, 207, 8, 28]]

/-- Layer 3 of the 16-leaf Merkle tree (value proved in
`layer3_eq`). -/
def layer3Lit16 : List Bytes :=
  [[68, 180, 17, 97, 15, 171, 147, 162, 32, 216, 29, 72, 50, 39, 98, 107, 88, 173, 2, 58, 236, 129, 140, 133, 93, 64, 116, 137, 229, 145, 241, 72],
   [139, 48, 166, 39, 136, 211, 210, 145, 4, 77, 56, 200, 182, 203, 53, 54, 112, 29, 55, 253, 72, 52, 77, 83, 212, 130, 98, 112, 20, 137, 91, 4]]

/-- A minimal honest instance over the degenerate hash: 2 steps, 1 query;
`2299975 = H(H(5))` over `STARK_PRIME`. -/
def w2 : Witness := ⟨⟨5, STARK_PRIME⟩⟩

def st2 : Statement := ⟨2, ⟨2299975, STARK_PRIME⟩⟩

def params2 : AuthParams := ⟨2, 1⟩

def p2 : Proof := (generateAuthProof hash0 st2 w2 params2 1).toOption.getD ⟨[], [], []⟩

/-- Parameters demanding more distinct indices than an 8-byte draw modulo
`steps - 1` can ever produce: the rejection-sampling loop cannot finish. -/
def cxParams : AuthParams := ⟨2 ^ 70, 2 ^ 64 + 4096⟩

def cxWitness : Witness := ⟨⟨0, STARK_PRIME⟩⟩

/-- The true final value of the (astronomically long) counterexample
trace; stated by definition, never evaluated. -/
def cxFinal : FieldElement :=
  (chain cxWitness.secret (2 ^ 70)).getD (2 ^ 70 - 1) ⟨0, 0⟩

def cxStatement : Statement := ⟨2 ^ 70, cxFinal⟩

/-- Two arbitrary 32-byte leaves that are not encodings of the opened trace
values, with `rootC5 = sha256(leafA ++ leafB)` (checked by the verifier's
own Merkle replay in `c5_thm`). -/
def leafA : Bytes := List.replicate 32 0

def leafB : Bytes := List.replicate 31 0 ++ [1]

def rootC5 : Bytes :=
  [144, 244, 179, 149, 72, 223, 85, 173, 97, 135, 161, 210, 13, 115, 30,
   206, 231, 140, 84, 91, 148, 175, 209, 111, 66, 239, 117, 146, 217, 156,
   211, 101]

/-- A proof whose Merkle commitment is over `leafA`/`leafB` while the
openings carry the honest trace values `H(5)` and `H(H(5))`. -/
def proofC5 : Proof :=
  ⟨rootC5, [0],
   [⟨0, ⟨132, STARK_PRIME⟩, ⟨2299975, STARK_PRIME⟩,
     ⟨leafA, [(leafB, Pos.right)], rootC5⟩,
     ⟨leafB, [(leafA, Pos.left)], rootC5⟩⟩]⟩

/-- A malformed proof whose verification throws inside `verify`'s `try`:
`queries = 3 > steps - 1 = 2`, caught and turned into `false`. -/
def dummyOpening : AuthOpening := ⟨0, ⟨0, 0⟩, ⟨0, 0⟩, ⟨[], [], []⟩, ⟨[], [], []⟩⟩

def badProof : Proof := ⟨[], [0, 1, 2], [dummyOpening, dummyOpening, dummyOpening]⟩

def badVerifier : StarkVerifier := ⟨⟨3, ⟨0, STARK_PRIME⟩⟩, ⟨3, 3⟩⟩

/-- The honest trace, leaves, layers, root and openings that
`generateAuthProof` assembles (named so inversion lemmas can state its
result). -/
def traceOf (w : Witness) (p : AuthParams) : List FieldElement :=
  chain w.secret p.steps

def leavesOf (w : Witness) (p : AuthParams) : List Bytes :=
  (traceOf w p).map fieldElementToBytes

def layersOf (hash : Bytes → Bytes) (w : Witness) (p : AuthParams) :
    List (List Bytes) :=
  buildLayers hash (leavesOf w p)

def treeRootOf (hash : Bytes → Bytes) (w : Witness) (p : AuthParams) :
    Bytes :=
  ((layersOf hash w p).getLastD []).headD []

def openingOf (hash : Bytes → Bytes) (w : Witness) (p : AuthParams)
    (index : Nat) : AuthOpening :=
  ⟨index, (traceOf w p).getD index ⟨0, 0⟩, (traceOf w p).getD (index + 1) ⟨0, 0⟩,
   ⟨(leavesOf w p).getD index [], collectPath (layersOf hash w p) index,
    treeRootOf hash w p⟩,
   ⟨(leavesOf w p).getD (index + 1) [],
    collectPath (layersOf hash w p) (index + 1), treeRootOf hash w p⟩⟩

/-! # Theorems -/

/-- Known test vector: SHA-256 of the empty string. -/
theorem sha256_empty :
    sha256 [] =
      [227, 176, 196, 66, 152, 252, 28, 20, 154, 251, 244, 200, 153, 111,
       185, 36, 39, 174, 65, 228, 100, 155, 147, 76, 164, 149, 153, 27,
       120, 82, 184, 85] := by decide

/-- Known test vector: SHA-256 of the ASCII string "abc". -/
theorem sha256_abc :
    sha256 [97, 98, 99] =
      [186, 120, 22, 191, 143, 1, 207, 234, 65, 65, 64, 222, 93, 174, 34,
       35, 176, 3, 97, 163, 150, 23, 122, 156, 180, 16, 255, 97, 242, 0,
       21, 173] := by decide

/-! ## Bridging lemmas for the field embedding -/

/-- Canonicalization of a natural argument is plain `Nat.mod`. -/
theorem mk'_natCast (n m : Nat) : FieldElement.mk' (n : Int) m = ⟨n % m, m⟩ := by
  unfold FieldElement.mk'
  rw [← Int.natCast_mod, Int.toNat_natCast]

/-- `equals` is propositional equality of the two records. -/
theorem equals_iff (a b : FieldElement) :
    FieldElement.equals a b = true ↔ a = b := by
  cases a
  cases b
  simp [FieldElement.equals, FieldElement.mk.injEq]

theorem equals_self (a : FieldElement) : FieldElement.equals a a = true :=
  (equals_iff a a).mpr rfl

/-- The binary-exponentiation loop preserves the result's modulus. -/
theorem powLoop_modulus :
    ∀ fuel r b e, (FieldElement.powLoop fuel r b e).modulus = r.modulus := by
  intro fuel
  induction fuel with
  | zero => intro r b e; rfl
  | succ n ih =>
      intro r b e
      unfold FieldElement.powLoop
      split
      · rfl
      · rw [ih]
        split <;> rfl

theorem powNat_modulus (a : FieldElement) (e : Nat) :
    (FieldElement.powNat a e).modulus = a.modulus := by
  unfold FieldElement.powNat
  rw [powLoop_modulus]
  rfl

/-- `pow` at a non-negative exponent never throws. -/
theorem pow_nonneg (a : FieldElement) (n : Nat) :
    a.pow (n : Int) = .ok (FieldElement.powNat a n) := by
  simp only [FieldElement.pow, Int.toNat_natCast]
  rw [if_neg (Int.not_lt.mpr (Int.natCast_nonneg n))]
  rfl

/-- `authHash` never throws: the cube and the constant share the modulus. -/
theorem authHash_eq (x : FieldElement) : authHash x = .ok (authHashP x) := by
  unfold authHash authHashP
  rw [show (3 : Int) = ((3 : Nat) : Int) from rfl, pow_nonneg]
  simp only [Bind.bind, Except.bind]
  simp [FieldElement.add, FieldElement.ensureSameField, powNat_modulus,
    FieldElement.mk']

theorem chain_length (x : FieldElement) (n : Nat) : (chain x n).length = n := by
  induction n generalizing x with
  | zero => rfl
  | succ n ih => simp [chain, ih]

/-- The trace entries are iterates of the transition. -/
theorem chain_getD (x : FieldElement) :
    ∀ n i, i < n → (chain x n).getD i ⟨0, 0⟩ = authHashP^[i + 1] x := by
  intro n
  induction n generalizing x with
  | zero => omega
  | succ n ih =>
      intro i hi
      cases i with
      | zero => simp [chain]
      | succ i =>
          have := ih (authHashP x) i (by omega)
          simp only [chain, List.getD_cons_succ, this,
            Function.iterate_succ_apply]

/-- Consecutive trace entries are linked by the transition. -/
theorem chain_succ (x : FieldElement) (n i : Nat) (h : i + 1 < n) :
    (chain x n).getD (i + 1) ⟨0, 0⟩ = authHashP ((chain x n).getD i ⟨0, 0⟩) := by
  rw [chain_getD x n i (by omega), chain_getD x n (i + 1) h,
    ← Function.iterate_succ_apply' authHashP (i + 1) x]

/-! ## Byte-codec lemmas -/

theorem beBytes_lt : ∀ n v b, b ∈ SHA256.beBytes n v → b < 256 := by
  intro n
  induction n with
  | zero => simp [SHA256.beBytes]
  | succ n ih =>
      intro v b hb
      simp only [SHA256.beBytes, List.mem_append, List.mem_singleton] at hb
      rcases hb with h | h
      · exact ih _ _ h
      · omega

theorem beBytes_length (n v : Nat) : (SHA256.beBytes n v).length = n := by
  induction n generalizing v with
  | zero => rfl
  | succ n ih => simp [SHA256.beBytes, ih]

/-- `(a << 8) | b` is `a * 256 + b` when `b` is a byte. -/
theorem shift8_lor (a b : Nat) (h : b < 256) : (a <<< 8) ||| b = a * 256 + b := by
  rw [Nat.shiftLeft_eq, show a * 2 ^ 8 = 2 ^ 8 * a by ring,
    ← Nat.mul_add_lt_is_or (by omega : b < 2 ^ 8) a]
  ring

/-- The big-endian fold inverts the big-endian decomposition. -/
theorem fold_beBytes :
    ∀ n (acc v : Nat), v < 256 ^ n →
      (SHA256.beBytes n v).foldl (fun a b => (a <<< 8) ||| b) acc =
        acc * 256 ^ n + v := by
  intro n
  induction n with
  | zero =>
      intro acc v hv
      simp [SHA256.beBytes]
      omega
  | succ n ih =>
      intro acc v hv
      have hdiv : v / 256 < 256 ^ n := by
        rw [Nat.div_lt_iff_lt_mul (by omega : 0 < 256)]
        calc v < 256 ^ (n + 1) := hv
          _ = 256 ^ n * 256 := by ring
      simp only [SHA256.beBytes, List.foldl_append, List.foldl_cons,
        List.foldl_nil]
      rw [ih acc (v / 256) hdiv,
        shift8_lor _ _ (Nat.mod_lt _ (by omega))]
      calc (acc * 256 ^ n + v / 256) * 256 + v % 256
          = acc * (256 ^ n * 256) + (v / 256 * 256 + v % 256) := by ring
        _ = acc * 256 ^ (n + 1) + v := by
            have h2 : v / 256 * 256 + v % 256 = v := by omega
            rw [h2, pow_succ]

theorem STARK_PRIME_lt : STARK_PRIME < 256 ^ 32 := by decide

theorem beFold_beBytes_self (v : Nat) (h : v < 256 ^ 32) :
    beFold (SHA256.beBytes 32 v) = v := by
  unfold beFold
  rw [fold_beBytes 32 0 v h]
  ring

/-! ## C9 and C10: the byte codec -/

/-- C9: encode/decode round-trips on canonical field elements over
`STARK_PRIME`, and decode rejects any length other than 32 bytes with
`InvalidLength`. -/
theorem c9_thm :
    (∀ a : FieldElement, a.modulus = STARK_PRIME → a.value < STARK_PRIME →
      fieldElementFromBytes (fieldElementToBytes a) = .ok a) ∧
    (∀ bytes : Bytes, bytes.length ≠ 32 →
      fieldElementFromBytes bytes = .error .invalidLength) := by
  constructor
  · intro a hm hv
    unfold fieldElementFromBytes fieldElementToBytes
    rw [beBytes_length]
    simp only [if_neg (by omega : ¬ (32 : Nat) ≠ 32)]
    rw [beFold_beBytes_self a.value (lt_trans hv STARK_PRIME_lt), mk'_natCast,
      Nat.mod_eq_of_lt hv]
    cases a
    simp_all
  · intro bytes h
    unfold fieldElementFromBytes
    simp [h]

/-- Witness for C9 at the canonical element 5 and the 0-length byte string. -/
theorem c9_thm_witness :
    ((⟨5, STARK_PRIME⟩ : FieldElement).modulus = STARK_PRIME ∧
      (⟨5, STARK_PRIME⟩ : FieldElement).value < STARK_PRIME ∧
      fieldElementFromBytes (fieldElementToBytes ⟨5, STARK_PRIME⟩) =
        .ok ⟨5, STARK_PRIME⟩) ∧
    (([] : Bytes).length ≠ 32 ∧
      fieldElementFromBytes [] = .error .invalidLength) :=
  ⟨⟨rfl, by decide, c9_thm.1 ⟨5, STARK_PRIME⟩ rfl (by decide)⟩,
   ⟨by decide, c9_thm.2 [] (by decide)⟩⟩

/-- C10: a 32-byte input whose big-endian value is at least `STARK_PRIME`
is not rejected — `fieldElementFromBytes` silently reduces it mod the
prime. -/
theorem c10_thm (bytes : Bytes) (h32 : bytes.length = 32)
    (hge : STARK_PRIME ≤ beFold bytes) :
    fieldElementFromBytes bytes =
      .ok ⟨beFold bytes % STARK_PRIME, STARK_PRIME⟩ := by
  unfold fieldElementFromBytes
  simp only [h32, if_neg (by omega : ¬ (32 : Nat) ≠ 32)]
  rw [mk'_natCast]

/-- Witness for C10 at the all-`0xff` input, whose value `2^256 - 1`
exceeds `STARK_PRIME`. -/
theorem c10_thm_witness :
    (List.replicate 32 255 : Bytes).length = 32 ∧
    STARK_PRIME ≤ beFold (List.replicate 32 255) ∧
    fieldElementFromBytes (List.replicate 32 255) =
      .ok ⟨beFold (List.replicate 32 255) % STARK_PRIME, STARK_PRIME⟩ :=
  ⟨by decide, by decide,
   c10_thm (List.replicate 32 255) (by decide) (by decide)⟩

/-! ## C4: the final trace value (off by one in the claim) -/

/-- C4 counterexample: `trace[15]` is not the transition applied 16 times
to `Transition(secret)` — that would be 17 total applications. -/
theorem c4_cx :
    (buildAuthTrace w16 params16).map (fun t => t.getD 15 ⟨0, 0⟩) ≠
      .ok (authHashP^[16] (authHashP w16.secret)) := by decide

/-- C4 amended: `trace[15]` is the transition applied 15 further times to
`Transition(secret)`, i.e. 16 applications in total starting from the
secret. -/
theorem c4_thm :
    (buildAuthTrace w16 params16).map (fun t => t.getD 15 ⟨0, 0⟩) =
      .ok (authHashP^[15] (authHashP w16.secret)) := by decide

/-! ## C8: extended Euclid and the multiplicative inverse -/

/-- The first component of the Euclid loop is the gcd of its state. -/
theorem egcdLoop_fst :
    ∀ fuel oldR r (oldS s : Int), r ≤ fuel →
      (FieldElement.egcdLoop fuel oldR r oldS s).1 = Nat.gcd oldR r := by
  intro fuel
  induction fuel with
  | zero =>
      intro oldR r oldS s hr
      have h0 : r = 0 := by omega
      subst h0
      simp [FieldElement.egcdLoop]
  | succ n ih =>
      intro oldR r oldS s hr
      unfold FieldElement.egcdLoop
      by_cases h : r = 0
      · subst h; simp
      · simp only [h, if_false]
        have hmod : oldR % r < r := Nat.mod_lt _ (Nat.pos_of_ne_zero h)
        rw [ih r (oldR % r) s _ (by omega)]
        rw [Nat.gcd_comm oldR r, Nat.gcd_rec r oldR, Nat.gcd_comm]

/-- The second component of the Euclid loop stays a Bézout coefficient for
`A` modulo `M`, provided the two state rows start as such. -/
theorem egcdLoop_snd (A M : Int) :
    ∀ (fuel oldR r : Nat) (oldS s : Int), r ≤ fuel →
      Int.ModEq M (oldS * A) (oldR : Int) → Int.ModEq M (s * A) (r : Int) →
      Int.ModEq M ((FieldElement.egcdLoop fuel oldR r oldS s).2 * A)
        (((FieldElement.egcdLoop fuel oldR r oldS s).1 : Nat) : Int) := by
  intro fuel
  induction fuel with
  | zero =>
      intro oldR r oldS s hr h1 h2
      have h0 : r = 0 := by omega
      subst h0
      simpa [FieldElement.egcdLoop] using h1
  | succ n ih =>
      intro oldR r oldS s hr h1 h2
      unfold FieldElement.egcdLoop
      by_cases h : r = 0
      · subst h; simpa using h1
      · simp only [h, if_false]
        have hmod : oldR % r < r := Nat.mod_lt _ (Nat.pos_of_ne_zero h)
        apply ih r (oldR % r) s (oldS - ((oldR / r : Nat) : Int) * s) (by omega) h2
        have h3 : oldR % r + r * (oldR / r) = oldR := Nat.mod_add_div oldR r
        have h4 : ((oldR % r : Nat) : Int) =
            (oldR : Int) - ((oldR / r : Nat) : Int) * (r : Int) := by
          have h5 : (((oldR % r) + r * (oldR / r) : Nat) : Int) = ((oldR : Nat) : Int) :=
            congrArg (fun t : Nat => (t : Int)) h3
          rw [Nat.cast_add, Nat.cast_mul] at h5
          linarith
        rw [h4]
        have h5 := Int.ModEq.sub h1
          (Int.ModEq.mul_left ((oldR / r : Nat) : Int) h2)
        have h6 : (oldS - ((oldR / r : Nat) : Int) * s) * A =
            oldS * A - ((oldR / r : Nat) : Int) * (s * A) := by ring
        rw [h6]
        exact h5

/-- `mul` reduces to the canonicalized product when the moduli agree. -/
theorem mul_eq (a b : FieldElement) (h : a.modulus = b.modulus) :
    a.mul b =
      .ok (FieldElement.mk' ((a.value : Int) * (b.value : Int)) a.modulus) := by
  unfold FieldElement.mul FieldElement.ensureSameField
  simp [h]

/-- C8: over a prime modulus, a nonzero canonical element times its
`inverse()` is the multiplicative identity, and inverting zero fails with
`DivisionByZero`. -/
theorem c8_thm :
    (∀ a : FieldElement, a.modulus.Prime → a.value < a.modulus →
      a.value ≠ 0 →
      (a.inverse >>= fun b => a.mul b) = .ok (FieldElement.one a.modulus)) ∧
    (∀ a : FieldElement, a.value = 0 →
      a.inverse = .error .divisionByZero) := by
  constructor
  · rintro ⟨v, p⟩ hp hlt h0
    simp only at hp hlt h0
    have hp2 : 2 ≤ p := hp.two_le
    have hpne : p ≠ 0 := by omega
    have hgcd : (FieldElement.egcdLoop p v p 1 0).1 = Nat.gcd v p :=
      egcdLoop_fst p v p 1 0 le_rfl
    have hco : Nat.gcd v p = 1 := by
      have hnd : ¬ p ∣ v := fun hdvd =>
        absurd (Nat.le_of_dvd (Nat.pos_of_ne_zero h0) hdvd) (by omega)
      have hcop := (Nat.Prime.coprime_iff_not_dvd hp).mpr hnd
      exact Nat.coprime_comm.mp hcop
    have hbz := egcdLoop_snd (v : Int) (p : Int) p v p 1 0 le_rfl
      (by simpa using Int.ModEq.refl ((v : Nat) : Int))
      (by
        show (0 * (v : Int)) % (p : Int) = ((p : Nat) : Int) % (p : Int)
        simp [Int.emod_self])
    rw [hgcd, hco] at hbz
    set x : Int := (FieldElement.egcdLoop p v p 1 0).2 with hx
    -- now hbz : x * v ≡ 1 [ZMOD p]
    have hinv : (⟨v, p⟩ : FieldElement).inverse = .ok (FieldElement.mk' x p) := by
      unfold FieldElement.inverse FieldElement.extendedGcd
      simp [h0, hpne, hgcd, hco, ← hx]
    rw [hinv]
    simp only [Bind.bind, Except.bind]
    rw [mul_eq ⟨v, p⟩ (FieldElement.mk' x p) rfl]
    have hw : ((((x % (p : Int)).toNat : Nat)) : Int) = x % (p : Int) :=
      Int.toNat_of_nonneg (Int.emod_nonneg x (by exact_mod_cast hpne))
    have hval : ((v : Int) * (((x % (p : Int)).toNat : Nat) : Int)) % (p : Int)
        = (1 : Int) % (p : Int) := by
      rw [hw]
      calc (v : Int) * (x % (p : Int)) % (p : Int)
          = ((v : Int) % (p : Int)) * (x % (p : Int) % (p : Int)) % (p : Int) := by
            rw [← Int.mul_emod]
        _ = ((v : Int) % (p : Int)) * (x % (p : Int)) % (p : Int) := by
            rw [Int.emod_emod_of_dvd x (dvd_refl ((p : Nat) : Int))]
        _ = ((v : Int) * x) % (p : Int) := by rw [← Int.mul_emod]
        _ = (x * (v : Int)) % (p : Int) := by ring_nf
        _ = (1 : Int) % (p : Int) := hbz
    have : FieldElement.mk'
        (((⟨v, p⟩ : FieldElement).value : Int) *
          ((FieldElement.mk' x p).value : Int)) p = FieldElement.one p := by
      unfold FieldElement.one FieldElement.mk'
      simp only [FieldElement.mk.injEq]
      exact ⟨by rw [hval], trivial⟩
    rw [this]
  · rintro ⟨v, p⟩ h
    simp only at h
    unfold FieldElement.inverse
    simp [h]

/-- Witness for C8 at `3` and `0` over the prime modulus `7`. -/
theorem c8_thm_witness :
    (Nat.Prime (7 : Nat) ∧ (3 : Nat) < 7 ∧ (3 : Nat) ≠ 0 ∧
      ((⟨3, 7⟩ : FieldElement).inverse >>= fun b =>
        (⟨3, 7⟩ : FieldElement).mul b) = .ok (FieldElement.one 7)) ∧
    ((⟨0, 7⟩ : FieldElement).value = 0 ∧
      (⟨0, 7⟩ : FieldElement).inverse = .error .divisionByZero) :=
  ⟨⟨by norm_num, by norm_num, by norm_num,
    c8_thm.1 ⟨3, 7⟩ (by norm_num) (by norm_num) (by norm_num)⟩,
   ⟨rfl, c8_thm.2 ⟨0, 7⟩ rfl⟩⟩

/-! ## C6: Merkle round-trip -/

/-- The default argument of `getLastD` is irrelevant on nonempty lists. -/
theorem getLastD_irrel {α : Type} (B : List α) (d d' : α) (h : B ≠ []) :
    B.getLastD d = B.getLastD d' := by
  cases B with
  | nil => exact absurd rfl h
  | cons a l => rw [List.getLastD_cons, List.getLastD_cons]

theorem buildLayersF_ne_nil (hash : Bytes → Bytes) (fuel : Nat)
    (l : List Bytes) : buildLayersF hash fuel l ≠ [] := by
  cases fuel with
  | zero => simp [buildLayersF]
  | succ n =>
      unfold buildLayersF
      split <;> simp

/-- Pairing adjacent nodes halves a layer, rounding up. -/
theorem nextLayer_length (hash : Bytes → Bytes) :
    ∀ l : List Bytes, (nextLayer hash l).length = (l.length + 1) / 2
  | [] => by simp [nextLayer]
  | [_] => by simp [nextLayer]
  | a :: b :: rest => by
      simp only [nextLayer, List.length_cons, nextLayer_length hash rest]
      omega

/-- The `k`-th node of the next layer: the hash of children `2k`, `2k+1`
when both exist, or the promoted unpaired child `2k`. -/
theorem nextLayer_getD (hash : Bytes → Bytes) :
    ∀ (l : List Bytes) (k : Nat), 2 * k < l.length →
      (nextLayer hash l).getD k [] =
        if 2 * k + 1 < l.length then
          hash (l.getD (2 * k) [] ++ l.getD (2 * k + 1) [])
        else l.getD (2 * k) []
  | [], k, h => by simp at h
  | [a], k, h => by
      have hk : k = 0 := by simp at h; omega
      subst hk
      simp [nextLayer]
  | a :: b :: rest, 0, h => by simp [nextLayer]
  | a :: b :: rest, k + 1, h => by
      have hlt : 2 * k < rest.length := by
        simp only [List.length_cons] at h; omega
      have hrec := nextLayer_getD hash rest k hlt
      have e0 : (nextLayer hash (a :: b :: rest)).getD (k + 1) [] =
          (nextLayer hash rest).getD k [] := by
        simp [nextLayer]
      have e1 : (a :: b :: rest).getD (2 * (k + 1)) [] = rest.getD (2 * k) [] := by
        have h2 : 2 * (k + 1) = 2 * k + 1 + 1 := by ring
        rw [h2, List.getD_cons_succ, List.getD_cons_succ]
      have e2 : (a :: b :: rest).getD (2 * (k + 1) + 1) [] =
          rest.getD (2 * k + 1) [] := by
        have h2 : 2 * (k + 1) + 1 = 2 * k + 1 + 1 + 1 := by ring
        rw [h2, List.getD_cons_succ, List.getD_cons_succ]
      rw [e0, hrec]
      by_cases hc : 2 * k + 1 < rest.length
      · rw [if_pos hc, if_pos (by simp only [List.length_cons]; omega), e1, e2]
      · rw [if_neg hc, if_neg (by simp only [List.length_cons]; omega), e1]

/-- Base case: a single layer contributes no path entries and is its own
root. -/
theorem replay_single (hash : Bytes → Bytes) (l : List Bytes) (idx : Nat)
    (hidx : idx < l.length) (hlen : l.length ≤ 1) :
    replayChain hash (l.getD idx []) (collectPath [l] idx) =
      ([l].getLastD []).headD [] := by
  cases l with
  | nil => simp at hidx
  | cons a l' =>
      have h1 : l' = [] := by
        rcases l' with _ | ⟨b, t⟩
        · rfl
        · exfalso; simp only [List.length_cons] at hlen; omega
      subst h1
      have h2 : idx = 0 := by
        simp only [List.length_cons, List.length_nil] at hidx; omega
      subst h2
      simp [collectPath, replayChain]

/-- Replaying the collected path from any leaf of any layer stack built by
`buildLayersF` reaches the stack's root. -/
theorem replay_buildLayersF (hash : Bytes → Bytes) :
    ∀ (fuel : Nat) (l : List Bytes) (idx : Nat), idx < l.length →
      l.length ≤ fuel + 1 →
      replayChain hash (l.getD idx [])
          (collectPath (buildLayersF hash fuel l) idx) =
        ((buildLayersF hash fuel l).getLastD []).headD [] := by
  intro fuel
  induction fuel with
  | zero =>
      intro l idx hidx hlen
      show replayChain hash (l.getD idx []) (collectPath [l] idx) = _
      exact replay_single hash l idx hidx hlen
  | succ n ih =>
      intro l idx hidx hlen
      by_cases hl : l.length ≤ 1
      · unfold buildLayersF
        rw [if_pos hl]
        exact replay_single hash l idx hidx hl
      · push_neg at hl
        unfold buildLayersF
        rw [if_neg (by omega)]
        have hB := buildLayersF_ne_nil hash n (nextLayer hash l)
        obtain ⟨b0, B', hBeq⟩ := List.exists_cons_of_ne_nil hB
        rw [hBeq]
        have hsplit : collectPath (l :: b0 :: B') idx =
            (if (if idx % 2 = 1 then idx - 1 else idx + 1) < l.length then
              [(l.getD (if idx % 2 = 1 then idx - 1 else idx + 1) [],
                if idx % 2 = 1 then Pos.left else Pos.right)]
            else []) ++ collectPath (b0 :: B') (idx / 2) := by
          simp only [collectPath]
        rw [hsplit]
        unfold replayChain
        rw [List.foldl_append]
        have hstep : List.foldl
            (fun current e =>
              match e.2 with
              | Pos.left => hash (e.1 ++ current)
              | Pos.right => hash (current ++ e.1))
            (l.getD idx [])
            (if (if idx % 2 = 1 then idx - 1 else idx + 1) < l.length then
              [(l.getD (if idx % 2 = 1 then idx - 1 else idx + 1) [],
                if idx % 2 = 1 then Pos.left else Pos.right)]
            else []) = (nextLayer hash l).getD (idx / 2) [] := by
          by_cases hodd : idx % 2 = 1
          · rw [if_pos (by rw [if_pos hodd]; omega), if_pos hodd, if_pos hodd]
            simp only [List.foldl_cons, List.foldl_nil]
            rw [nextLayer_getD hash l (idx / 2) (by omega),
              if_pos (show 2 * (idx / 2) + 1 < l.length by omega),
              show 2 * (idx / 2) + 1 = idx by omega,
              show 2 * (idx / 2) = idx - 1 by omega]
          · by_cases hs : idx + 1 < l.length
            · rw [if_pos (by rw [if_neg hodd]; omega), if_neg hodd, if_neg hodd]
              simp only [List.foldl_cons, List.foldl_nil]
              rw [nextLayer_getD hash l (idx / 2) (by omega),
                if_pos (show 2 * (idx / 2) + 1 < l.length by omega),
                show 2 * (idx / 2) + 1 = idx + 1 by omega,
                show 2 * (idx / 2) = idx by omega]
            · rw [if_neg (by rw [if_neg hodd]; omega)]
              simp only [List.foldl_nil]
              rw [nextLayer_getD hash l (idx / 2) (by omega),
                if_neg (show ¬ (2 * (idx / 2) + 1 < l.length) by omega),
                show 2 * (idx / 2) = idx by omega]
        rw [hstep]
        have hidx' : idx / 2 < (nextLayer hash l).length := by
          rw [nextLayer_length]; omega
        have hlen' : (nextLayer hash l).length ≤ n + 1 := by
          rw [nextLayer_length]; omega
        have hrec := ih (nextLayer hash l) (idx / 2) hidx' hlen'
        rw [hBeq] at hrec
        unfold replayChain at hrec
        rw [hrec,
          show (l :: b0 :: B').getLastD [] = (b0 :: B').getLastD l from
            List.getLastD_cons _ _ _,
          getLastD_irrel (b0 :: B') l [] (by simp)]

/-- A proof assembled by `getProof` from the built layers verifies. -/
theorem verify_built_proof (hash : Bytes → Bytes) (leaves : List Bytes)
    (i : Nat) (h2 : i < leaves.length) :
    MerkleProof.verify hash
      ⟨leaves.getD i [], collectPath (buildLayers hash leaves) i,
       ((buildLayers hash leaves).getLastD []).headD []⟩ = true := by
  unfold MerkleProof.verify buildLayers
  show (replayChain hash _ _ == _) = true
  rw [replay_buildLayersF hash leaves.length leaves i h2 (by omega)]
  exact beq_self_eq_true _

/-- C6: for every non-empty leaf sequence and valid index, the proof
returned by `getProof` verifies against the tree's root. -/
theorem c6_thm (hash : Bytes → Bytes) (leaves : List Bytes) (i : Nat)
    (h1 : leaves ≠ []) (h2 : i < leaves.length) :
    ((MerkleTree.build hash leaves).bind (fun t => t.getProof i)).map
      (MerkleProof.verify hash) = .ok true := by
  unfold MerkleTree.build
  rw [if_neg (fun h => h1 (List.length_eq_zero.mp h))]
  show (MerkleTree.getProof
      ⟨leaves, buildLayers hash leaves,
       ((buildLayers hash leaves).getLastD []).headD []⟩ i).map
      (MerkleProof.verify hash) = .ok true
  unfold MerkleTree.getProof
  rw [if_neg (show ¬ i ≥ leaves.length by omega)]
  show Except.ok (MerkleProof.verify hash _) = Except.ok true
  rw [verify_built_proof hash leaves i h2]

/-- Witness for C6: three-leaf tree under SHA-256, index 2 (the promoted
unpaired leaf). -/
theorem c6_thm_witness :
    (([[1], [2], [3]] : List Bytes) ≠ [] ∧
      2 < ([[1], [2], [3]] : List Bytes).length) ∧
    ((MerkleTree.build sha256 [[1], [2], [3]]).bind
        (fun t => t.getProof 2)).map (MerkleProof.verify sha256) = .ok true :=
  ⟨⟨by decide, by decide⟩,
   c6_thm sha256 [[1], [2], [3]] 2 (by decide) (by decide)⟩

/-! ## C3: query-index derivation -/

/-- Every drawn index is in range `[0, steps-2]` once `steps ≥ 2`. -/
theorem idxDraw_lt (hash : Bytes → Bytes) (seed : Bytes)
    (steps counter : Nat) (h : 2 ≤ steps) :
    idxDraw hash seed steps counter < steps - 1 :=
  Nat.mod_lt _ (by omega)

/-- Invariants of the rejection-sampling loop, at a successful exit. -/
theorem deriveLoop_spec (hash : Bytes → Bytes) (seed : Bytes)
    (steps queries : Nat) (hsteps : 2 ≤ steps) :
    ∀ (fuel : Nat) (indices : List Nat) (counter : Nat) (l : List Nat),
      deriveLoop hash seed steps queries indices counter fuel = some l →
      indices.length ≤ queries → indices.Nodup →
      (∀ x ∈ indices, x ≤ steps - 2) →
      indices.head? = some (steps - 2) →
      l.length = queries ∧ l.Nodup ∧ (∀ x ∈ l, x ≤ steps - 2) ∧
        l.head? = some (steps - 2) := by
  intro fuel
  induction fuel with
  | zero =>
      intro indices counter l h hlen hnd hrange hhead
      unfold deriveLoop at h
      by_cases hq : queries ≤ indices.length
      · rw [if_pos hq] at h
        cases h
        exact ⟨by omega, hnd, hrange, hhead⟩
      · rw [if_neg hq] at h
        cases h
  | succ n ih =>
      intro indices counter l h hlen hnd hrange hhead
      unfold deriveLoop at h
      by_cases hq : queries ≤ indices.length
      · rw [if_pos hq] at h
        cases h
        exact ⟨by omega, hnd, hrange, hhead⟩
      · rw [if_neg hq] at h
        by_cases hc : indices.contains (idxDraw hash seed steps counter) = true
        · simp only [hc, if_true] at h
          exact ih indices (counter + 1) l h hlen hnd hrange hhead
        · simp only [Bool.not_eq_true] at hc
          simp only [hc, Bool.false_eq_true, if_false] at h
          have hnotmem : idxDraw hash seed steps counter ∉ indices := by
            intro hm
            have := List.elem_eq_true_of_mem hm
            rw [show List.elem (idxDraw hash seed steps counter) indices =
              indices.contains (idxDraw hash seed steps counter) from rfl,
              hc] at this
            cases this
          refine ih _ (counter + 1) l h ?_ ?_ ?_ ?_
          · simp only [List.length_append, List.length_singleton]
            omega
          · rw [← List.concat_eq_append]
            exact List.Nodup.concat hnotmem hnd
          · intro x hx
            rcases List.mem_append.mp hx with hx | hx
            · exact hrange x hx
            · have hxeq : x = idxDraw hash seed steps counter :=
                List.mem_singleton.mp hx
              have := idxDraw_lt hash seed steps counter hsteps
              omega
          · cases indices with
            | nil => simp at hhead
            | cons a t => simpa using hhead

/-- C3 amended: whenever `deriveQueryIndices` returns (the sampling loop
terminates within the fuel), the result has exactly `queries` pairwise
distinct indices in `[0, steps-2]` whose first element is `steps-2`. -/
theorem c3_thm (hash : Bytes → Bytes) (seed : Bytes) (p : AuthParams)
    (fuel : Nat) (l : List Nat)
    (h : deriveQueryIndices hash seed p fuel = .ok l) :
    l.length = p.queries ∧ l.Nodup ∧ (∀ i ∈ l, i ≤ p.steps - 2) ∧
      l.head? = some (p.steps - 2) := by
  unfold deriveQueryIndices at h
  by_cases h1 : p.queries < 1
  · rw [if_pos h1] at h; cases h
  rw [if_neg h1] at h
  by_cases h2 : p.steps < 2
  · rw [if_pos h2] at h; cases h
  rw [if_neg h2] at h
  by_cases h3 : p.queries > p.steps - 1
  · rw [if_pos h3] at h; cases h
  rw [if_neg h3] at h
  cases hd : deriveLoop hash seed p.steps p.queries [p.steps - 2] 0 fuel with
  | none => rw [hd] at h; cases h
  | some l' =>
      rw [hd] at h
      injection h with h'
      subst h'
      exact deriveLoop_spec hash seed p.steps p.queries (by omega) fuel
        [p.steps - 2] 0 _ hd (by simp; omega) (by simp)
        (by intro x hx; simp at hx; omega) (by simp)

/-- Witness for C3 at the degenerate hash, `steps = 4`, `queries = 2`:
the constant draw is `0`, so the result is `[2, 0]`. -/
theorem c3_thm_witness :
    deriveQueryIndices hash0 [] ⟨4, 2⟩ 1 = .ok [2, 0] ∧
    ([2, 0].length = (⟨4, 2⟩ : AuthParams).queries ∧ [2, 0].Nodup ∧
      (∀ i ∈ [2, 0], i ≤ (⟨4, 2⟩ : AuthParams).steps - 2) ∧
      [2, 0].head? = some ((⟨4, 2⟩ : AuthParams).steps - 2)) :=
  ⟨by decide, c3_thm hash0 [] ⟨4, 2⟩ 1 [2, 0] (by decide)⟩

/-! ## Non-termination of the sampling loop for oversized parameters
(counterexamples to the unconditional success in C1 and C3) -/

/-- Every byte of a SHA-256 digest is below 256. -/
theorem sha256_bytes_lt :
    ∀ (msg : Bytes) (b : Nat), b ∈ sha256 msg → b < 256 := by
  have hfold : ∀ (ws : List Nat) (b : Nat),
      b ∈ ws.foldr (fun w acc => SHA256.beBytes 4 w ++ acc) [] → b < 256 := by
    intro ws
    induction ws with
    | nil => simp
    | cons w t ih =>
        intro b hb
        simp only [List.foldr_cons, List.mem_append] at hb
        rcases hb with hb | hb
        · exact beBytes_lt 4 w b hb
        · exact ih b hb
  intro msg b hb
  exact hfold _ b hb

/-- The big-endian fold of a byte list grows by at most 8 bits per byte. -/
theorem fold_lor_lt :
    ∀ (l : Bytes) (a k : Nat), a < 2 ^ (8 * k) → (∀ b ∈ l, b < 256) →
      l.foldl (fun a b => (a <<< 8) ||| b) a < 2 ^ (8 * (k + l.length)) := by
  intro l
  induction l with
  | nil => intro a k ha _; simpa using ha
  | cons b t ih =>
      intro a k ha hb
      simp only [List.foldl_cons, List.length_cons]
      have hb0 : b < 256 := hb b (by simp)
      have hstep : (a <<< 8) ||| b < 2 ^ (8 * (k + 1)) := by
        rw [shift8_lor a b hb0]
        have h1 : 2 ^ (8 * (k + 1)) = 2 ^ (8 * k) * 256 := by
          rw [show 8 * (k + 1) = 8 * k + 8 by ring, pow_add]
          norm_num
        rw [h1]
        omega
      have hres := ih ((a <<< 8) ||| b) (k + 1) hstep
        (fun x hx => hb x (by simp [hx]))
      rw [show k + 1 + t.length = k + (t.length + 1) by ring] at hres
      exact hres

/-- Any single draw is below `2^64` when the hash emits bytes. -/
theorem idxDraw_lt64 (hash : Bytes → Bytes)
    (hhash : ∀ msg b, b ∈ hash msg → b < 256) (seed : Bytes)
    (steps counter : Nat) : idxDraw hash seed steps counter < 2 ^ 64 := by
  unfold idxDraw
  have hbytes : ∀ b ∈ (hash (seed ++
      [(counter >>> 24) &&& 255, (counter >>> 16) &&& 255,
       (counter >>> 8) &&& 255, counter &&& 255])).take 8, b < 256 :=
    fun b hb => hhash _ b (List.mem_of_mem_take hb)
  have hacc := fold_lor_lt _ 0 0 (by norm_num) hbytes
  have hmono : (2 : Nat) ^ (8 * (0 + ((hash (seed ++
      [(counter >>> 24) &&& 255, (counter >>> 16) &&& 255,
       (counter >>> 8) &&& 255, counter &&& 255])).take 8).length)) ≤ 2 ^ 64 :=
    Nat.pow_le_pow_right (by norm_num)
      (by have := List.length_take_le 8 (hash (seed ++
        [(counter >>> 24) &&& 255, (counter >>> 16) &&& 255,
         (counter >>> 8) &&& 255, counter &&& 255])); omega)
  exact lt_of_le_of_lt (Nat.mod_le _ _) (lt_of_lt_of_le hacc hmono)

/-- With more queries demanded than `2^64 + 1` (one forced index plus every
possible 8-byte draw), the sampling loop cannot finish: it returns `none`
at every fuel. -/
theorem deriveLoop_none (hash : Bytes → Bytes) (seed : Bytes)
    (steps queries : Nat)
    (hhash : ∀ msg b, b ∈ hash msg → b < 256)
    (hq : 2 ^ 64 + 1 < queries) :
    ∀ (fuel : Nat) (indices : List Nat) (counter : Nat),
      indices.Nodup → (∀ x ∈ indices, x < 2 ^ 64 ∨ x = steps - 2) →
      deriveLoop hash seed steps queries indices counter fuel = none := by
  have hbound : ∀ indices : List Nat, indices.Nodup →
      (∀ x ∈ indices, x < 2 ^ 64 ∨ x = steps - 2) →
      indices.length ≤ 2 ^ 64 + 1 := by
    intro indices hnd hmem
    have hsub : indices.toFinset ⊆ Finset.range (2 ^ 64) ∪ {steps - 2} := by
      intro x hx
      rcases hmem x (List.mem_toFinset.mp hx) with h | h
      · exact Finset.mem_union_left _ (Finset.mem_range.mpr h)
      · exact Finset.mem_union_right _ (Finset.mem_singleton.mpr h)
    calc indices.length = indices.toFinset.card :=
          (List.toFinset_card_of_nodup hnd).symm
      _ ≤ (Finset.range (2 ^ 64) ∪ {steps - 2}).card :=
          Finset.card_le_card hsub
      _ ≤ (Finset.range (2 ^ 64)).card + ({steps - 2} : Finset Nat).card :=
          Finset.card_union_le _ _
      _ = 2 ^ 64 + 1 := by simp
  intro fuel
  induction fuel with
  | zero =>
      intro indices counter hnd hmem
      unfold deriveLoop
      rw [if_neg (by have := hbound indices hnd hmem; omega)]
  | succ n ih =>
      intro indices counter hnd hmem
      unfold deriveLoop
      rw [if_neg (by have := hbound indices hnd hmem; omega)]
      by_cases hc : indices.contains (idxDraw hash seed steps counter) = true
      · simp only [hc, if_true]
        exact ih indices (counter + 1) hnd hmem
      · simp only [Bool.not_eq_true] at hc
        simp only [hc, Bool.false_eq_true, if_false]
        refine ih _ (counter + 1) ?_ ?_
        · rw [← List.concat_eq_append]
          refine List.Nodup.concat ?_ hnd
          intro hm
          have := List.elem_eq_true_of_mem hm
          rw [show List.elem (idxDraw hash seed steps counter) indices =
            indices.contains (idxDraw hash seed steps counter) from rfl,
            hc] at this
          cases this
        · intro x hx
          rcases List.mem_append.mp hx with hx | hx
          · exact hmem x hx
          · left
            rw [List.mem_singleton.mp hx]
            exact idxDraw_lt64 hash hhash seed steps counter

/-- For the oversized parameters, `deriveQueryIndices` fails at every fuel
(the real loop runs forever), for every seed. -/
theorem derive_err_cx (seed : Bytes) (fuel : Nat) :
    deriveQueryIndices sha256 seed cxParams fuel = .error .outOfFuel := by
  unfold deriveQueryIndices cxParams
  rw [if_neg (by norm_num), if_neg (by norm_num), if_neg (by norm_num)]
  rw [deriveLoop_none sha256 seed (2 ^ 70) (2 ^ 64 + 4096)
    sha256_bytes_lt (by norm_num) fuel [2 ^ 70 - 2] 0 (by simp)
    (by intro x hx; right; simpa using hx)]

/-- C3 counterexample: the claimed unconditional success fails.  For
`steps = 2^70`, `queries = 2^64 + 4096` — parameters the claim admits,
since `steps ≥ 2` and `1 ≤ queries ≤ steps - 1` — an 8-byte draw reduced
mod `steps - 1` can take at most `2^64` values, so `queries` distinct
indices can never be collected and `deriveQueryIndices` never returns. -/
theorem c3_cx :
    (2 ≤ cxParams.steps ∧ 1 ≤ cxParams.queries ∧
      cxParams.queries ≤ cxParams.steps - 1) ∧
    ¬ ∃ (fuel : Nat) (l : List Nat),
        deriveQueryIndices sha256 [] cxParams fuel = .ok l := by
  constructor
  · exact ⟨by norm_num [cxParams], by norm_num [cxParams],
      by norm_num [cxParams]⟩
  · rintro ⟨fuel, l, h⟩
    rw [derive_err_cx [] fuel] at h
    cases h

/-! ## Helper lemmas for the prover/verifier chain -/

theorem except_bind_ok {α β γ : Type} (a : β) (f : β → Except α γ) :
    (Except.ok a : Except α β).bind f = f a := rfl

theorem except_bind_err {α β γ : Type} (e : α) (f : β → Except α γ) :
    (Except.error e : Except α β).bind f = .error e := rfl

/-- `mapM` over `Except` succeeds pointwise. -/
theorem mapM_ok {α β : Type} (f : α → Except Err β) (g : α → β) :
    ∀ l : List α, (∀ i ∈ l, f i = .ok (g i)) → l.mapM f = .ok (l.map g) := by
  intro l
  induction l with
  | nil => intro _; rfl
  | cons a t ih =>
      intro h
      rw [List.mapM_cons, h a (by simp), ih (fun i hi => h i (by simp [hi]))]
      rfl

/-- Membership in `l.zip (l.map g)` determines the second component. -/
theorem mem_zip_map {α β : Type} (g : α → β) :
    ∀ (l : List α) (pr : α × β),
      pr ∈ l.zip (l.map g) → pr.2 = g pr.1 ∧ pr.1 ∈ l := by
  intro l
  induction l with
  | nil => simp
  | cons a t ih =>
      intro pr hpr
      simp only [List.map_cons, List.zip_cons_cons, List.mem_cons] at hpr
      rcases hpr with h | h
      · rw [h]
        exact ⟨rfl, by simp⟩
      · obtain ⟨h1, h2⟩ := ih pr h
        exact ⟨h1, by simp [h2]⟩

theorem leavesOf_length (w : Witness) (p : AuthParams) :
    (leavesOf w p).length = p.steps := by
  simp [leavesOf, traceOf, chain_length]

/-- Full output contract of `deriveQueryIndices`, successful case. -/
theorem derive_ok_spec (hash : Bytes → Bytes) (seed : Bytes) (p : AuthParams)
    (fuel : Nat) (l : List Nat)
    (h : deriveQueryIndices hash seed p fuel = .ok l) :
    1 ≤ p.queries ∧ 2 ≤ p.steps ∧ p.queries ≤ p.steps - 1 ∧
      l.length = p.queries ∧ l.Nodup ∧ (∀ i ∈ l, i ≤ p.steps - 2) ∧
      l.head? = some (p.steps - 2) := by
  unfold deriveQueryIndices at h
  by_cases h1 : p.queries < 1
  · rw [if_pos h1] at h; cases h
  rw [if_neg h1] at h
  by_cases h2 : p.steps < 2
  · rw [if_pos h2] at h; cases h
  rw [if_neg h2] at h
  by_cases h3 : p.queries > p.steps - 1
  · rw [if_pos h3] at h; cases h
  rw [if_neg h3] at h
  cases hd : deriveLoop hash seed p.steps p.queries [p.steps - 2] 0 fuel with
  | none => rw [hd] at h; cases h
  | some l' =>
      rw [hd] at h
      injection h with h'
      subst h'
      refine ⟨by omega, by omega, by omega, ?_⟩
      exact deriveLoop_spec hash seed p.steps p.queries (by omega) fuel
        [p.steps - 2] 0 _ hd (by simp; omega) (by simp)
        (by intro x hx; simp at hx; omega) (by simp)

/-- The verifier's opening loop accepts when every pair satisfies all its
checks and the forced final transition occurs (or the flag is already
set). -/
theorem checkOpenings_true (hash : Bytes → Bytes) (st : Statement)
    (steps : Nat) (root : Bytes) :
    ∀ (pairs : List (Nat × AuthOpening)) (flag : Bool),
      (∀ pr ∈ pairs,
        pr.2.index = pr.1 ∧ pr.1 < steps - 1 ∧
        pr.2.proofCurrent.root = root ∧ pr.2.proofNext.root = root ∧
        MerkleProof.verify hash pr.2.proofCurrent = true ∧
        MerkleProof.verify hash pr.2.proofNext = true ∧
        FieldElement.equals (authHashP pr.2.current) pr.2.next = true ∧
        (pr.1 = steps - 2 →
          FieldElement.equals pr.2.next st.finalHash = true)) →
      (flag = true ∨ ∃ pr ∈ pairs, pr.1 = steps - 2) →
      checkOpenings hash st steps root pairs flag = true := by
  intro pairs
  induction pairs with
  | nil =>
      intro flag _ hflag
      rcases hflag with hflag | ⟨pr, hpr, _⟩
      · exact hflag
      · cases hpr
  | cons pr rest ih =>
      intro flag hall hflag
      obtain ⟨i, op⟩ := pr
      obtain ⟨hidx, hrange, hcr, hnr, hvc, hvn, htr, hfin⟩ :=
        hall (i, op) (by simp)
      simp only at hidx hrange hcr hnr hvc hvn htr hfin
      unfold checkOpenings
      rw [if_neg (not_not_intro hidx)]
      rw [if_neg (by omega : ¬ steps - 1 ≤ i)]
      rw [if_neg (not_not_intro ⟨hcr, hnr⟩)]
      rw [if_neg (not_not_intro hvc)]
      rw [if_neg (not_not_intro hvn)]
      rw [if_neg (not_not_intro htr)]
      by_cases hi : i = steps - 2
      · rw [if_pos hi, if_neg (not_not_intro (hfin hi))]
        exact ih true (fun q hq => hall q (by simp [hq])) (Or.inl rfl)
      · rw [if_neg hi]
        refine ih flag (fun q hq => hall q (by simp [hq])) ?_
        rcases hflag with hflag | ⟨q, hq, hq2⟩
        · exact Or.inl hflag
        · rcases (List.mem_cons.mp hq) with hq | hq
          · exfalso; rw [hq] at hq2; exact hi hq2
          · exact Or.inr ⟨q, hq, hq2⟩

/-! ## C1: inversion of the prover and completeness of the verifier -/

theorem build_ok (hash : Bytes → Bytes) (w : Witness) (p : AuthParams)
    (h : 1 ≤ p.steps) :
    MerkleTree.build hash (leavesOf w p) =
      .ok ⟨leavesOf w p, layersOf hash w p, treeRootOf hash w p⟩ := by
  unfold MerkleTree.build
  rw [if_neg (by rw [leavesOf_length]; omega)]
  rfl

theorem getProof_ok (hash : Bytes → Bytes) (w : Witness) (p : AuthParams)
    (i : Nat) (hi : i < p.steps) :
    MerkleTree.getProof
        ⟨leavesOf w p, layersOf hash w p, treeRootOf hash w p⟩ i =
      .ok ⟨(leavesOf w p).getD i [], collectPath (layersOf hash w p) i,
           treeRootOf hash w p⟩ := by
  unfold MerkleTree.getProof
  rw [if_neg (show ¬ i ≥ (leavesOf w p).length by rw [leavesOf_length]; omega)]

theorem openProver_eq (hash : Bytes → Bytes) (w : Witness) (p : AuthParams)
    (i : Nat) (hi : i + 1 < p.steps) :
    openProver ⟨leavesOf w p, layersOf hash w p, treeRootOf hash w p⟩
      (chain w.secret p.steps) i = .ok (openingOf hash w p i) := by
  unfold openProver
  rw [getProof_ok hash w p i (by omega), except_bind_ok,
    getProof_ok hash w p (i + 1) hi, except_bind_ok]
  rfl

/-- Inversion of a successful `generateAuthProof`: the guards passed, the
final trace value matches the statement, and the proof is exactly the
honest root, the derived indices, and the honest openings. -/
theorem gen_ok_spec (hash : Bytes → Bytes) (st : Statement) (w : Witness)
    (p : AuthParams) (fuel : Nat) (proof : Proof)
    (h : generateAuthProof hash st w p fuel = .ok proof) :
    1 ≤ p.queries ∧ p.queries ≤ p.steps - 1 ∧ 2 ≤ p.steps ∧
    FieldElement.equals ((chain w.secret p.steps).getD (p.steps - 1) ⟨0, 0⟩)
      st.finalHash = true ∧
    ∃ indices,
      deriveQueryIndices hash
          (computeChallengeSeed hash (treeRootOf hash w p) st) p fuel =
        .ok indices ∧
      proof = ⟨treeRootOf hash w p, indices,
               indices.map (openingOf hash w p)⟩ := by
  unfold generateAuthProof at h
  by_cases hq1 : p.queries < 1
  · rw [if_pos hq1] at h; cases h
  rw [if_neg hq1] at h
  by_cases hq2 : p.queries > p.steps - 1
  · rw [if_pos hq2] at h; cases h
  rw [if_neg hq2] at h
  unfold buildAuthTrace at h
  by_cases hs : p.steps < 2
  · rw [if_pos hs, except_bind_err] at h; cases h
  rw [if_neg hs, except_bind_ok] at h
  by_cases heq : FieldElement.equals
      ((chain w.secret p.steps).getD (p.steps - 1) ⟨0, 0⟩) st.finalHash = true
  · rw [if_neg (not_not_intro heq)] at h
    rw [show (chain w.secret p.steps).map fieldElementToBytes = leavesOf w p
      from rfl] at h
    rw [build_ok hash w p (by omega), except_bind_ok] at h
    cases hd : deriveQueryIndices hash
        (computeChallengeSeed hash (treeRootOf hash w p) st) p fuel with
    | error e => rw [hd, except_bind_err] at h; cases h
    | ok indices =>
        rw [hd, except_bind_ok] at h
        have hspec := derive_ok_spec _ _ _ _ _ hd
        have hmm : indices.mapM (openProver
            ⟨leavesOf w p, layersOf hash w p, treeRootOf hash w p⟩
            (chain w.secret p.steps)) =
            .ok (indices.map (openingOf hash w p)) :=
          mapM_ok _ _ indices (fun i hi => openProver_eq hash w p i
            (by have := hspec.2.2.2.2.2.1 i hi; omega))
        rw [hmm, except_bind_ok] at h
        injection h with h'
        exact ⟨by omega, by omega, by omega, heq, indices, rfl, h'.symm⟩
  · rw [if_pos heq] at h; cases h

/-- Completeness of the verifier against the honest prover: any proof that
`generateAuthProof` returns is accepted by `StarkVerifier.verify` (with the
same statement, params and fuel). -/
theorem verify_of_gen (hash : Bytes → Bytes) (st : Statement) (w : Witness)
    (p : AuthParams) (fuel : Nat) (proof : Proof)
    (h : generateAuthProof hash st w p fuel = .ok proof) :
    StarkVerifier.verify hash ⟨st, p⟩ proof fuel = true := by
  obtain ⟨hq1, hq2, hsteps, heq, indices, hd, hproof⟩ :=
    gen_ok_spec hash st w p fuel proof h
  obtain ⟨_, _, _, hlen, hnd, hrange, hhead⟩ := derive_ok_spec _ _ _ _ _ hd
  subst hproof
  have hbody : verifyBody hash ⟨st, p⟩
      ⟨treeRootOf hash w p, indices, indices.map (openingOf hash w p)⟩ fuel =
      .ok true := by
    unfold verifyBody
    rw [if_neg (show ¬ (p.steps < 2 ∨ p.queries < 1) by
      push_neg; exact ⟨by omega, by omega⟩)]
    rw [if_neg (show ¬ indices.length ≠ p.queries from not_not_intro hlen)]
    rw [if_neg (show ¬ (indices.map (openingOf hash w p)).length ≠ p.queries
      from not_not_intro (by rw [List.length_map]; exact hlen))]
    rw [hd, except_bind_ok]
    rw [if_neg (show ¬ indices ≠ indices from not_not_intro rfl)]
    have hcheck := checkOpenings_true hash st p.steps (treeRootOf hash w p)
      (indices.zip (indices.map (openingOf hash w p))) false ?_ ?_
    · rw [hcheck]
    · intro pr hpr
      obtain ⟨hsnd, hmem⟩ := mem_zip_map (openingOf hash w p) indices pr hpr
      have hile : pr.1 ≤ p.steps - 2 := hrange pr.1 hmem
      rw [hsnd]
      unfold openingOf
      refine ⟨rfl, by omega, rfl, rfl, ?_, ?_, ?_, ?_⟩
      · have := verify_built_proof hash (leavesOf w p) pr.1
          (by rw [leavesOf_length]; omega)
        simpa [layersOf, treeRootOf] using this
      · have := verify_built_proof hash (leavesOf w p) (pr.1 + 1)
          (by rw [leavesOf_length]; omega)
        simpa [layersOf, treeRootOf] using this
      · refine (equals_iff _ _).mpr ?_
        show authHashP ((traceOf w p).getD pr.1 ⟨0, 0⟩) =
          (traceOf w p).getD (pr.1 + 1) ⟨0, 0⟩
        unfold traceOf
        rw [chain_succ w.secret p.steps pr.1 (by omega)]
      · intro hfin
        show FieldElement.equals ((traceOf w p).getD (pr.1 + 1) ⟨0, 0⟩)
          st.finalHash = true
        unfold traceOf
        rw [show pr.1 + 1 = p.steps - 1 by omega]
        exact heq
    · right
      cases hil : indices with
      | nil => rw [hil] at hhead; cases hhead
      | cons a t =>
          rw [hil] at hhead
          have ha : a = p.steps - 2 := by
            simp only [List.head?_cons, Option.some.injEq] at hhead
            exact hhead
          refine ⟨(a, openingOf hash w p a), ?_, ha⟩
          simp
  unfold StarkVerifier.verify
  rw [hbody]

/-- Forward evaluation of the prover: under the guards, a matching witness
and a successful index derivation, `generateAuthProof` returns exactly the
honest root, indices and openings. -/
theorem gen_eq (hash : Bytes → Bytes) (st : Statement) (w : Witness)
    (p : AuthParams) (fuel : Nat) (indices : List Nat)
    (hq1 : ¬ p.queries < 1) (hq2 : ¬ p.queries > p.steps - 1)
    (hs : ¬ p.steps < 2)
    (heq : FieldElement.equals
      ((chain w.secret p.steps).getD (p.steps - 1) ⟨0, 0⟩)
      st.finalHash = true)
    (hrange : ∀ i ∈ indices, i ≤ p.steps - 2)
    (hd : deriveQueryIndices hash
        (computeChallengeSeed hash (treeRootOf hash w p) st) p fuel =
      .ok indices) :
    generateAuthProof hash st w p fuel =
      .ok ⟨treeRootOf hash w p, indices,
           indices.map (openingOf hash w p)⟩ := by
  unfold generateAuthProof buildAuthTrace
  rw [if_neg hq1, if_neg hq2, if_neg hs, except_bind_ok,
    if_neg (not_not_intro heq),
    show (chain w.secret p.steps).map fieldElementToBytes = leavesOf w p
      from rfl,
    build_ok hash w p (by omega), except_bind_ok, hd, except_bind_ok,
    mapM_ok _ _ indices (fun i hi => openProver_eq hash w p i
      (by have := hrange i hi; omega)),
    except_bind_ok]

set_option maxRecDepth 1000000 in
set_option maxHeartbeats 1000000 in
/-- The leaf encodings of the 16-step trace, by evaluation. -/
theorem leaves16_eq : leavesOf w16 params16 = leavesLit16 := by
  decide

set_option maxRecDepth 1000000 in
set_option maxHeartbeats 1000000 in
/-- One Merkle pair hash of the 16-step instance, by evaluation. -/
theorem hashPair1x0 :
    sha256 ([0, 0, 0, 0, 0, 0, 0, 0, 0, 0, 0, 0, 0, 0, 0, 0, 0, 0, 0, 0, 0, 1, 142, 117, 225, 105, 33, 139, 4, 131, 147, 52] ++
      [0, 3, 197, 84, 122, 125, 15, 207, 117, 198, 104, 33, 91, 72, 6, 234, 115, 140, 201, 107, 203, 22, 120, 232, 52, 85, 113, 197, 60, 64, 53, 71]) =
      [195, 68, 165, 126, 209, 134, 204, 163, 149, 118, 198, 254, 137, 3, 169, 248, 201, 148, 236, 17, 50, 34, 141, 27, 5, 122, 39, 154, 108, 125, 62, 67] := by
  decide

set_option maxRecDepth 1000000 in
set_option maxHeartbeats 1000000 in
/-- One Merkle pair hash of the 16-step instance, by evaluation. -/
theorem hashPair1x1 :
    sha256 ([5, 143, 25, 228, 204, 207, 175, 74, 175, 179, 243, 119, 236, 52, 93, 199, 247, 91, 85, 193, 137, 241, 129, 222, 223, 60, 135, 83, 206, 107, 117, 233] ++
      [7, 249, 33, 100, 77, 214, 129, 81, 252, 111, 87, 245, 141, 61, 7, 242, 179, 135, 87, 175, 7, 48, 107, 134, 163, 11, 96, 14, 20, 252, 72, 159]) =
      [245, 56, 118, 2, 107, 49, 101, 90, 180, 26, 58, 235, 43, 3, 100, 191, 90, 169, 33, 127, 26, 99, 28, 76, 233, 102, 208, 92, 116, 231, 134, 91] := by
  decide

set_option maxRecDepth 1000000 in
set_option maxHeartbeats 1000000 in
/-- One Merkle pair hash of the 16-step instance, by evaluation. -/
theorem hashPair1x2 :
    sha256 ([4, 247, 39, 205, 221, 6, 132, 221, 69, 156, 154, 77, 246, 79, 25, 115, 96, 153, 56, 46, 56, 81, 159, 70, 106, 195, 190, 240, 109, 237, 45, 73] ++
      [2, 16, 46, 201, 96, 188, 97, 190, 152, 60, 173, 207, 252, 45, 195, 189, 233, 231, 50, 188, 105, 14, 191, 188, 87, 97, 68, 57, 99, 65, 131, 217]) =
      [112, 214, 50, 50, 55, 211, 144, 225, 106, 182, 63, 72, 48, 250, 182, 159, 116, 217, 99, 137, 31, 63, 107, 33, 50, 72, 161, 35, 174, 182, 173, 62] := by
  decide

set_option maxRecDepth 1000000 in
set_option maxHeartbeats 1000000 in
/-- One Merkle pair hash of the 16-step instance, by evaluation. -/
theorem hashPair1x3 :
    sha256 ([6, 252, 167, 153, 81, 12, 131, 7, 50, 39, 221, 17, 189, 177, 193, 135, 204, 37, 96, 114, 157, 236, 139, 203, 253, 82, 30, 107, 189, 15, 108, 140] ++
      [0, 16, 235, 25, 249, 172, 17, 163, 229, 29, 77, 9, 128, 61, 213, 46, 21, 30, 244, 225, 109, 111, 142, 196, 129, 102, 113, 250, 63, 131, 185, 242]) =
      [239, 104, 81, 77, 131, 56, 134, 122, 167, 16, 101, 66, 31, 116, 57, 144, 206, 14, 163, 133, 142, 35, 33, 2, 118, 208, 19, 191, 106, 123, 135, 181] := by
  decide

set_option maxRecDepth 1000000 in
set_option maxHeartbeats 1000000 in
/-- One Merkle pair hash of the 16-step instance, by evaluation. -/
theorem hashPair1x4 :
    sha256 ([4, 135, 6, 250, 32, 63, 132, 104, 59, 252, 254, 249, 104, 41, 143, 205, 231, 134, 187, 234, 217, 15, 86, 55, 16, 182, 8, 4, 228, 195, 242, 238] ++
      [7, 249, 167, 26, 40, 166, 15, 108, 94, 67, 53, 194, 162, 237, 172, 59, 197, 12, 49, 122, 196, 10, 53, 117, 221, 43, 130, 203, 91, 166, 226, 18]) =
      [162, 167, 82, 13, 231, 243, 214, 227, 21, 152, 198, 9, 43, 76, 243, 143, 72, 152, 45, 91, 203, 40, 74, 145, 9, 25, 22, 42, 217, 120, 164, 139] := by
  decide

set_option maxRecDepth 1000000 in
set_option maxHeartbeats 1000000 in
/-- One Merkle pair hash of the 16-step instance, by evaluation. -/
theorem hashPair1x5 :
    sha256 ([6, 24, 42, 81, 75, 87, 40, 87, 217, 179, 176, 41, 166, 178, 127, 82, 40, 3, 209, 216, 134, 37, 100, 163, 118, 55, 188, 119, 101, 69, 4, 33] ++
      [6, 90, 200, 75, 229, 226, 94, 59, 234, 234, 139, 83, 27, 221, 84, 168, 236, 236, 45, 47, 69, 25, 89, 124, 230, 18, 60, 141, 101, 203, 174, 19]) =
      [145, 195, 233, 109, 150, 79, 54, 211, 243, 58, 58, 110, 249, 191, 255, 77, 1, 1, 18, 122, 99, 163, 168, 146, 174, 185, 26, 162, 6, 145, 64, 70] := by
  decide

set_option maxRecDepth 1000000 in
set_option maxHeartbeats 1000000 in
/-- One Merkle pair hash of the 16-step instance, by evaluation. -/
theorem hashPair1x6 :
    sha256 ([7, 151, 6, 138, 27, 213, 236, 107, 14, 253, 98, 208, 15, 142, 57, 167, 97, 163, 84, 196, 241, 21, 140, 187, 190, 79, 27, 214, 92, 163, 51, 99] ++
      [6, 234, 158, 191, 75, 0, 205, 58, 24, 159, 101, 154, 5, 49, 137, 219, 231, 99, 131, 241, 134, 146, 170, 63, 161, 159, 204, 16, 109, 55, 27, 171]) =
      [100, 255, 182, 140, 220, 152, 83, 148, 96, 10, 115, 163, 227, 178, 144, 83, 16, 197, 161, 65, 179, 102, 63, 171, 173, 72, 79, 102, 109, 201, 195, 255] := by
  decide

set_option maxRecDepth 1000000 in
set_option maxHeartbeats 1000000 in
/-- One Merkle pair hash of the 16-step instance, by evaluation. -/
theorem hashPair1x7 :
    sha256 ([2, 14, 174, 160, 95, 155, 129, 49, 235, 40, 25, 167, 59, 207, 92, 82, 119, 19, 39, 67, 61, 116, 65, 101, 52, 13, 94, 44, 233, 51, 248, 54] ++
      [0, 124, 7, 133, 41, 240, 209, 80, 112, 134, 223, 94, 131, 59, 187, 188, 72, 245, 66, 103, 26, 120, 46, 26, 201, 173, 117, 149, 75, 56, 225, 111]) =
      [194, 50, 51, 130, 133, 243, 216, 221, 59, 176, 23, 61, 184, 205, 24, 16, 120, 111, 169, 193, 243, 178, 16, 66, 72, 172, 192, 218, 102, 184, 158, 16] := by
  decide

/-- Layer 1 of the Merkle tree of the 16-step instance, assembled from
the per-pair hashes. -/
theorem layer1_eq : nextLayer sha256 leavesLit16 = layer1Lit16 := by
  unfold leavesLit16
  simp only [nextLayer]
  rw [hashPair1x0, hashPair1x1, hashPair1x2, hashPair1x3, hashPair1x4, hashPair1x5, hashPair1x6, hashPair1x7]
  rfl

set_option maxRecDepth 1000000 in
set_option maxHeartbeats 1000000 in
/-- One Merkle pair hash of the 16-step instance, by evaluation. -/
theorem hashPair2x0 :
    sha256 ([195, 68, 165, 126, 209, 134, 204, 163, 149, 118, 198, 254, 137, 3, 169, 248, 201, 148, 236, 17, 50, 34, 141, 27, 5, 122, 39, 154, 108, 125, 62, 67] ++
      [245, 56, 118, 2, 107, 49, 101, 90, 180, 26, 58, 235, 43, 3, 100, 191, 90, 169, 33, 127, 26, 99, 28, 76, 233, 102, 208, 92, 116, 231, 134, 91]) =
      [153, 184, 164, 77, 252, 196, 71, 197, 90, 206, 26, 228, 93, 118, 66, 36, 199, 183, 235, 168, 113, 56, 189, 138, 68, 251, 125, 137, 16, 119, 140, 82] := by
  decide

set_option maxRecDepth 1000000 in
set_option maxHeartbeats 1000000 in
/-- One Merkle pair hash of the 16-step instance, by evaluation. -/
theorem hashPair2x1 :
    sha256 ([112, 214, 50, 50, 55, 211, 144, 225, 106, 182, 63, 72, 48, 250, 182, 159, 116, 217, 99, 137, 31, 63, 107, 33, 50, 72, 161, 35, 174, 182, 173, 62] ++
      [239, 104, 81, 77, 131, 56, 134, 122, 167, 16, 101, 66, 31, 116, 57, 144, 206, 14, 163, 133, 142, 35, 33, 2, 118, 208, 19, 191, 106, 123, 135, 181]) =
      [11, 126, 202, 78, 242, 68, 131, 168, 183, 181, 192, 7, 247, 252, 227, 101, 66, 224, 63, 221, 161, 39, 94, 59, 43, 115, 144, 247, 147, 164, 62, 227] := by
  decide

set_option maxRecDepth 1000000 in
set_option maxHeartbeats 1000000 in
/-- One Merkle pair hash of the 16-step instance, by evaluation. -/
theorem hashPair2x2 :
    sha256 ([162, 167, 82, 13, 231, 243, 214, 227, 21, 152, 198, 9, 43, 76, 243, 143, 72, 152, 45, 91, 203, 40, 74, 145, 9, 25, 22, 42, 217, 120, 164, 139] ++
      [145, 195, 233, 109, 150, 79, 54, 211, 243, 58, 58, 110, 249, 191, 255, 77, 1, 1, 18, 122, 99, 163, 168, 146, 174, 185, 26, 162, 6, 145, 64, 70]) =
      [188, 6, 2, 231, 217, 180, 111, 83, 57, 116, 221, 225, 163, 80, 190, 204, 244, 246, 130, 223, 169, 155, 10, 43, 160, 244, 172, 138, 57, 97, 157, 135] := by
  decide

set_option maxRecDepth 1000000 in
set_option maxHeartbeats 1000000 in
/-- One Merkle pair hash of the 16-step instance, by evaluation. -/
theorem hashPair2x3 :
    sha256 ([100, 255, 182, 140, 220, 152, 83, 148, 96, 10, 115, 163, 227, 178, 144, 83, 16, 197, 161, 65, 179, 102, 63, 171, 173, 72, 79, 102, 109, 201, 195, 255] ++
      [194, 50, 51, 130, 133, 243, 216, 221, 59, 176, 23, 61, 184, 205, 24, 16, 120, 111, 169, 193, 243, 178, 16, 66, 72, 172, 192, 218, 102, 184, 158, 16]) =
      [194, 246, 180, 48, 103, 196, 175, 165, 154, 129, 47, 78, 76, 250, 130, 82, 231, 224, 212, 15, 159, 125, 104, 41, 220, 7, 108, 120, 161, 207, 8, 28] := by
  decide

/-- Layer 2 of the Merkle tree of the 16-step instance, assembled from
the per-pair hashes. -/
theorem layer2_eq : nextLayer sha256 layer1Lit16 = layer2Lit16 := by
  unfold layer1Lit16
  simp only [nextLayer]
  rw [hashPair2x0, hashPair2x1, hashPair2x2, hashPair2x3]
  rfl

set_option maxRecDepth 1000000 in
set_option maxHeartbeats 1000000 in
/-- One Merkle pair hash of the 16-step instance, by evaluation. -/
theorem hashPair3x0 :
    sha256 ([153, 184, 164, 77, 252, 196, 71, 197, 90, 206, 26, 228, 93, 118, 66, 36, 199, 183, 235, 168, 113, 56, 189, 138, 68, 251, 125, 137, 16, 119, 140, 82] ++
      [11, 126, 202, 78, 242, 68, 131, 168, 183, 181, 192, 7, 247, 252, 227, 101, 66, 224, 63, 221, 161, 39, 94, 59, 43, 115, 144, 247, 147, 164, 62, 227]) =
      [68, 180, 17, 97, 15, 171, 147, 162, 32, 216, 29, 72, 50, 39, 98, 107, 88, 173, 2, 58, 236, 129, 140, 133, 93, 64, 116, 137, 229, 145, 241, 72] := by
  decide

set_option maxRecDepth 1000000 in
set_option maxHeartbeats 1000000 in
/-- One Merkle pair hash of the 16-step instance, by evaluation. -/
theorem hashPair3x1 :
    sha256 ([188, 6, 2, 231, 217, 180, 111, 83, 57, 116, 221, 225, 163, 80, 190, 204, 244, 246, 130, 223, 169, 155, 10, 43, 160, 244, 172, 138, 57, 97, 157, 135] ++
      [194, 246, 180, 48, 103, 196, 175, 165, 154, 129, 47, 78, 76, 250, 130, 82, 231, 224, 212, 15, 159, 125, 104, 41, 220, 7, 108, 120, 161, 207, 8, 28]) =
      [139, 48, 166, 39, 136, 211, 210, 145, 4, 77, 56, 200, 182, 203, 53, 54, 112, 29, 55, 253, 72, 52, 77, 83, 212, 130, 98, 112, 20, 137, 91, 4] := by
  decide

/-- Layer 3 of the Merkle tree of the 16-step instance, assembled from
the per-pair hashes. -/
theorem layer3_eq : nextLayer sha256 layer2Lit16 = layer3Lit16 := by
  unfold layer2Lit16
  simp only [nextLayer]
  rw [hashPair3x0, hashPair3x1]
  rfl

set_option maxRecDepth 1000000 in
set_option maxHeartbeats 1000000 in
/-- One Merkle pair hash of the 16-step instance, by evaluation. -/
theorem hashPair4x0 :
    sha256 ([68, 180, 17, 97, 15, 171, 147, 162, 32, 216, 29, 72, 50, 39, 98, 107, 88, 173, 2, 58, 236, 129, 140, 133, 93, 64, 116, 137, 229, 145, 241, 72] ++
      [139, 48, 166, 39, 136, 211, 210, 145, 4, 77, 56, 200, 182, 203, 53, 54, 112, 29, 55, 253, 72, 52, 77, 83, 212, 130, 98, 112, 20, 137, 91, 4]) =
      [144, 102, 158, 34, 195, 104, 150, 85, 239, 14, 0, 231, 98, 61, 183, 60, 230, 246, 213, 226, 184, 133, 46, 71, 67, 169, 221, 89, 204, 217, 106, 53] := by
  decide

/-- Layer 4 of the Merkle tree of the 16-step instance, assembled from
the per-pair hashes. -/
theorem layer4_eq : nextLayer sha256 layer3Lit16 = [rootLit16] := by
  unfold layer3Lit16
  simp only [nextLayer]
  rw [hashPair4x0]
  rfl

/-- The Merkle root of the spec's 16-step instance, assembled layer by
layer from the per-pair hashes. -/
theorem root16_eq : treeRootOf sha256 w16 params16 = rootLit16 := by
  unfold treeRootOf layersOf
  rw [leaves16_eq]
  unfold buildLayers
  rw [show leavesLit16.length = 16 from rfl]
  rw [show buildLayersF sha256 16 leavesLit16 =
        leavesLit16 :: buildLayersF sha256 15 (nextLayer sha256 leavesLit16)
      from rfl]
  rw [layer1_eq]
  rw [show buildLayersF sha256 15 layer1Lit16 =
        layer1Lit16 :: buildLayersF sha256 14 (nextLayer sha256 layer1Lit16)
      from rfl]
  rw [layer2_eq]
  rw [show buildLayersF sha256 14 layer2Lit16 =
        layer2Lit16 :: buildLayersF sha256 13 (nextLayer sha256 layer2Lit16)
      from rfl]
  rw [layer3_eq]
  rw [show buildLayersF sha256 13 layer3Lit16 =
        layer3Lit16 :: buildLayersF sha256 12 (nextLayer sha256 layer3Lit16)
      from rfl]
  rw [layer4_eq]
  rw [show buildLayersF sha256 12 [rootLit16] = [[rootLit16]] from rfl]
  rfl

set_option maxRecDepth 1000000 in
set_option maxHeartbeats 1000000 in
/-- The Fiat–Shamir seed of the 16-step instance, by evaluation. -/
theorem seed16_eq : computeChallengeSeed sha256 rootLit16 st16 = seedLit16 := by
  decide

set_option maxRecDepth 1000000 in
set_option maxHeartbeats 1000000 in
/-- The derived query indices of the 16-step instance, by evaluation. -/
theorem derive16_eq :
    deriveQueryIndices sha256 seedLit16 params16 40 =
      .ok [14, 10, 1, 2, 12] := by
  decide

/-- C1 counterexample: unconditional success fails.  The statement's
`finalHash` is exactly the final trace value (first conjunct), the
parameters satisfy the claim's bounds, yet `generateAuthProof` cannot
return: its index-derivation loop would run forever. -/
theorem c1_cx :
    (2 ≤ cxParams.steps ∧ 1 ≤ cxParams.queries ∧
      cxParams.queries ≤ cxParams.steps - 1 ∧
      cxStatement.finalHash =
        (chain cxWitness.secret cxParams.steps).getD
          (cxParams.steps - 1) ⟨0, 0⟩) ∧
    ¬ ∃ (fuel : Nat) (proof : Proof),
        generateAuthProof sha256 cxStatement cxWitness cxParams fuel =
          .ok proof := by
  have e0 : cxStatement = ⟨2 ^ 70, cxFinal⟩ := rfl
  have e1 : cxStatement.finalHash = cxFinal := by rw [e0]
  have hfinal : cxStatement.finalHash =
      (chain cxWitness.secret cxParams.steps).getD
        (cxParams.steps - 1) ⟨0, 0⟩ := by
    rw [e1]
    unfold cxFinal
    rw [show cxParams.steps = 2 ^ 70 from rfl]
  constructor
  · exact ⟨by norm_num [cxParams], by norm_num [cxParams],
      by norm_num [cxParams], hfinal⟩
  · rintro ⟨fuel, proof, h⟩
    have h0 : FieldElement.equals
        ((chain cxWitness.secret cxParams.steps).getD
          (cxParams.steps - 1) ⟨0, 0⟩) cxStatement.finalHash = true :=
      (equals_iff _ _).mpr hfinal.symm
    unfold generateAuthProof buildAuthTrace at h
    rw [if_neg (by norm_num [cxParams]), if_neg (by norm_num [cxParams]),
      if_neg (by norm_num [cxParams]), except_bind_ok,
      if_neg (not_not_intro h0),
      show (chain cxWitness.secret cxParams.steps).map fieldElementToBytes =
        leavesOf cxWitness cxParams from rfl,
      build_ok sha256 cxWitness cxParams (by norm_num [cxParams]),
      except_bind_ok, derive_err_cx _ fuel, except_bind_err] at h
    cases h

set_option maxRecDepth 100000 in
/-- C1 amended: whenever `generateAuthProof` returns a proof (the
Fiat–Shamir sampling loop terminates — which fails for parameters needing
more than `2^64 + 1` distinct indices, see `c1_cx`), `StarkVerifier.verify`
accepts it; and in the spec's concrete instance (secret 123456789, 16
steps, 5 queries, SHA-256) generation does succeed and verification
returns `true`. -/
theorem c1_thm :
    (∀ (hash : Bytes → Bytes) (st : Statement) (w : Witness)
        (p : AuthParams) (fuel : Nat) (proof : Proof),
      generateAuthProof hash st w p fuel = .ok proof →
      StarkVerifier.verify hash ⟨st, p⟩ proof fuel = true) ∧
    (generateAuthProof sha256 st16 w16 params16 40).map
        (fun pr => StarkVerifier.verify sha256 ⟨st16, params16⟩ pr 40) =
      .ok true := by
  constructor
  · exact verify_of_gen
  · have hd16 : deriveQueryIndices sha256
        (computeChallengeSeed sha256 (treeRootOf sha256 w16 params16) st16)
        params16 40 = .ok [14, 10, 1, 2, 12] := by
      rw [root16_eq, seed16_eq, derive16_eq]
    have heq16 : FieldElement.equals
        ((chain w16.secret params16.steps).getD (params16.steps - 1) ⟨0, 0⟩)
        st16.finalHash = true := by
      have h : st16.finalHash =
          (chain w16.secret params16.steps).getD (params16.steps - 1)
            ⟨0, 0⟩ := rfl
      rw [h]
      exact equals_self _
    have hgen := gen_eq sha256 st16 w16 params16 40 [14, 10, 1, 2, 12]
      (by decide) (by decide) (by decide) heq16 (by decide) hd16
    rw [hgen]
    show Except.ok (StarkVerifier.verify sha256 ⟨st16, params16⟩
      ⟨treeRootOf sha256 w16 params16, [14, 10, 1, 2, 12],
       [14, 10, 1, 2, 12].map (openingOf sha256 w16 params16)⟩ 40) =
      Except.ok true
    rw [verify_of_gen sha256 st16 w16 params16 40 _ hgen]

set_option maxRecDepth 100000 in
/-- Witness for C1's general conjunct at a concrete instance over the
degenerate hash (2 steps, 1 query). -/
theorem c1_thm_witness :
    generateAuthProof hash0 st2 w2 params2 1 = .ok p2 ∧
    StarkVerifier.verify hash0 ⟨st2, params2⟩ p2 1 = true :=
  ⟨by rfl, c1_thm.1 hash0 st2 w2 params2 1 p2 (by rfl)⟩

/-! ## C2: internal errors are caught and mean rejection -/

/-- C2: `verify` returns a boolean for every input, and any error thrown
inside the verification body is caught and yields `false`. -/
theorem c2_thm (hash : Bytes → Bytes) (v : StarkVerifier) (proof : Proof)
    (fuel : Nat) (e : Err) (h : verifyBody hash v proof fuel = .error e) :
    StarkVerifier.verify hash v proof fuel = false := by
  unfold StarkVerifier.verify
  rw [h]

/-- Witness for C2: a malformed proof (`queries = 3 > steps - 1 = 2`) makes
`deriveQueryIndices` throw `InvalidParams` inside the body; `verify`
returns `false`. -/
theorem c2_thm_witness :
    verifyBody sha256 badVerifier badProof 1 = .error .invalidParams ∧
    StarkVerifier.verify sha256 badVerifier badProof 1 = false :=
  ⟨by decide, c2_thm sha256 badVerifier badProof 1 .invalidParams (by decide)⟩

/-! ## C5: openings are never tied to the committed leaf bytes -/

set_option maxRecDepth 1000000 in
set_option maxHeartbeats 4000000 in
/-- C5: the verifier accepts `proofC5`, whose Merkle proofs open the
arbitrary leaves `leafA`/`leafB` while the opening's field values are the
honest trace values: `verify` never compares `fieldElementToBytes(current)`
with the leaf stored in the Merkle proof. -/
theorem c5_thm :
    StarkVerifier.verify sha256 ⟨st2, params2⟩ proofC5 1 = true ∧
    fieldElementToBytes ((proofC5.openings.getD 0 dummyOpening).current) ≠
      (proofC5.openings.getD 0 dummyOpening).proofCurrent.leaf := by
  constructor
  · decide
  · decide

/-! ## C7: root tampering is rejected -/

/-- Inversion of an accepting opening loop: every processed pair passed the
index, range and root checks. -/
theorem checkOpenings_inv (hash : Bytes → Bytes) (st : Statement)
    (steps : Nat) (root : Bytes) :
    ∀ (pairs : List (Nat × AuthOpening)) (flag : Bool),
      checkOpenings hash st steps root pairs flag = true →
      ∀ pr ∈ pairs, pr.2.index = pr.1 ∧ pr.1 < steps - 1 ∧
        pr.2.proofCurrent.root = root := by
  intro pairs
  induction pairs with
  | nil => intro flag _ pr hpr; cases hpr
  | cons q rest ih =>
      intro flag h pr hpr
      obtain ⟨i, op⟩ := q
      unfold checkOpenings at h
      by_cases h1 : op.index ≠ i
      · rw [if_pos h1] at h; cases h
      rw [if_neg h1] at h
      rw [not_not] at h1
      by_cases h2 : steps - 1 ≤ i
      · rw [if_pos h2] at h; cases h
      rw [if_neg h2] at h
      by_cases h3 : ¬ (op.proofCurrent.root = root ∧ op.proofNext.root = root)
      · rw [if_pos h3] at h; cases h
      rw [if_neg h3] at h
      rw [not_not] at h3
      by_cases h4 : ¬ MerkleProof.verify hash op.proofCurrent = true
      · rw [if_pos h4] at h; cases h
      rw [if_neg h4] at h
      by_cases h5 : ¬ MerkleProof.verify hash op.proofNext = true
      · rw [if_pos h5] at h; cases h
      rw [if_neg h5] at h
      by_cases h6 : ¬ FieldElement.equals (authHashP op.current) op.next = true
      · rw [if_pos h6] at h; cases h
      rw [if_neg h6] at h
      rcases List.mem_cons.mp hpr with hpr | hpr
      · rw [hpr]
        exact ⟨h1, by omega, h3.1⟩
      · by_cases h7 : i = steps - 2
        · rw [if_pos h7] at h
          by_cases h8 : ¬ FieldElement.equals op.next st.finalHash = true
          · rw [if_pos h8] at h; cases h
          rw [if_neg h8] at h
          exact ih true h pr hpr
        · rw [if_neg h7] at h
          exact ih flag h pr hpr

/-- Inversion of an accepting `verifyBody`. -/
theorem verifyBody_true_inv (hash : Bytes → Bytes) (v : StarkVerifier)
    (proof : Proof) (fuel : Nat)
    (h : verifyBody hash v proof fuel = .ok true) :
    ¬ (v.params.steps < 2 ∨ v.params.queries < 1) ∧
    proof.indices.length = v.params.queries ∧
    proof.openings.length = v.params.queries ∧
    checkOpenings hash v.statement v.params.steps proof.root
      (proof.indices.zip proof.openings) false = true := by
  unfold verifyBody at h
  by_cases h1 : v.params.steps < 2 ∨ v.params.queries < 1
  · rw [if_pos h1] at h; injection h with h'; cases h'
  rw [if_neg h1] at h
  by_cases h2 : proof.indices.length ≠ v.params.queries
  · rw [if_pos h2] at h; injection h with h'; cases h'
  rw [if_neg h2] at h
  by_cases h3 : proof.openings.length ≠ v.params.queries
  · rw [if_pos h3] at h; injection h with h'; cases h'
  rw [if_neg h3] at h
  rw [not_not] at h2 h3
  cases hd : deriveQueryIndices hash
      (computeChallengeSeed hash proof.root v.statement) v.params fuel with
  | error e => rw [hd, except_bind_err] at h; cases h
  | ok l =>
      rw [hd, except_bind_ok] at h
      by_cases h4 : l ≠ proof.indices
      · rw [if_pos h4] at h; injection h with h'; cases h'
      rw [if_neg h4] at h
      injection h with h'
      exact ⟨h1, h2, h3, h'⟩

/-- C7: replacing the root of any accepted proof by a different 32-byte
root (indices and openings unchanged) makes `verify` reject. -/
theorem c7_thm (hash : Bytes → Bytes) (v : StarkVerifier) (proof : Proof)
    (fuel : Nat) (r : Bytes) (hr32 : r.length = 32) (hne : r ≠ proof.root)
    (hacc : StarkVerifier.verify hash v proof fuel = true) :
    StarkVerifier.verify hash v { proof with root := r } fuel = false := by
  have hbody : verifyBody hash v proof fuel = .ok true := by
    unfold StarkVerifier.verify at hacc
    cases hb : verifyBody hash v proof fuel with
    | error e => rw [hb] at hacc; cases hacc
    | ok b =>
        rw [hb] at hacc
        rw [show b = true from hacc]
  obtain ⟨hguard, hleni, hleno, hcheck⟩ :=
    verifyBody_true_inv hash v proof fuel hbody
  obtain ⟨i0, irest, hil⟩ : ∃ a t, proof.indices = a :: t := by
    cases hpi : proof.indices with
    | nil =>
        exfalso
        rw [hpi] at hleni
        simp only [List.length_nil] at hleni
        push_neg at hguard
        omega
    | cons a t => exact ⟨a, t, rfl⟩
  obtain ⟨o0, orest, hol⟩ : ∃ a t, proof.openings = a :: t := by
    cases hpo : proof.openings with
    | nil =>
        exfalso
        rw [hpo] at hleno
        simp only [List.length_nil] at hleno
        push_neg at hguard
        omega
    | cons a t => exact ⟨a, t, rfl⟩
  have hinv := checkOpenings_inv hash v.statement v.params.steps proof.root
    (proof.indices.zip proof.openings) false hcheck (i0, o0)
    (by rw [hil, hol]; simp [List.zip_cons_cons])
  have hfail : checkOpenings hash v.statement v.params.steps
      (({ proof with root := r } : Proof).root)
      ((({ proof with root := r } : Proof).indices).zip
        (({ proof with root := r } : Proof).openings)) false = false := by
    rw [show ({ proof with root := r } : Proof).root = r from rfl,
      show ({ proof with root := r } : Proof).indices = proof.indices from rfl,
      show ({ proof with root := r } : Proof).openings = proof.openings
        from rfl,
      hil, hol, List.zip_cons_cons]
    unfold checkOpenings
    rw [if_neg (not_not_intro hinv.1),
      if_neg (show ¬ v.params.steps - 1 ≤ i0 by have := hinv.2.1; omega),
      if_pos (show ¬ (o0.proofCurrent.root = r ∧ o0.proofNext.root = r)
        from fun hcc => hne (by rw [← hcc.1, hinv.2.2]))]
  unfold StarkVerifier.verify
  cases hb' : verifyBody hash v { proof with root := r } fuel with
  | error e => rfl
  | ok b =>
      show b = false
      unfold verifyBody at hb'
      rw [if_neg hguard] at hb'
      rw [if_neg (show ¬ ({ proof with root := r } : Proof).indices.length ≠
        v.params.queries from not_not_intro hleni)] at hb'
      rw [if_neg (show ¬ ({ proof with root := r } : Proof).openings.length ≠
        v.params.queries from not_not_intro hleno)] at hb'
      cases hd' : deriveQueryIndices hash
          (computeChallengeSeed hash ({ proof with root := r } : Proof).root
            v.statement) v.params fuel with
      | error e =>
          rw [hd', except_bind_err] at hb'
          cases hb'
      | ok l' =>
          rw [hd', except_bind_ok] at hb'
          by_cases hll : l' ≠ ({ proof with root := r } : Proof).indices
          · rw [if_pos hll] at hb'
            injection hb' with h'
            exact h'.symm
          · rw [if_neg hll] at hb'
            rw [hfail] at hb'
            injection hb' with h'
            exact h'.symm

set_option maxRecDepth 1000000 in
/-- Witness for C7 at the degenerate-hash instance: `p2` is accepted, and
replacing its root with a different 32-byte string is rejected. -/
theorem c7_thm_witness :
    (List.replicate 32 1 : Bytes).length = 32 ∧
    (List.replicate 32 1 : Bytes) ≠ p2.root ∧
    StarkVerifier.verify hash0 ⟨st2, params2⟩ p2 1 = true ∧
    StarkVerifier.verify hash0 ⟨st2, params2⟩
      { p2 with root := List.replicate 32 1 } 1 = false :=
  ⟨by decide, by decide, by rfl,
   c7_thm hash0 ⟨st2, params2⟩ p2 1 (List.replicate 32 1)
     (by decide) (by decide) (by rfl)⟩

end ZK
